import Mathlib

/-!
The crams solver: chi-square evaluator, particle solver interface and grammage model.

Shallow embedding of `src/chi2.cpp`, `src/particle.cpp` and `src/grammage.cpp`.

Conventions of the embedding.

* A C++ `double` is an element of a linearly ordered field `α` (exact arithmetic).  Every
  definition is polymorphic in `α`, so it runs over `ℚ` and can be instantiated with `ℝ`
  when the transcendental functions of `<cmath>` are needed.  Division is the division of
  the field, for which `x / 0 = 0`; IEEE arithmetic gives an infinity or a NaN there, and the
  statements that depend on a non-zero divisor say so.  Rounding, overflow and underflow are
  not modelled, with one exception: `exp_double` is `std::exp` as a `double` returns it next
  to zero, where the result is exactly `1.0`.
* Headers that are not among the sources (`cgs.h`, `utilities.h`, `pid.h`, `params.h`, the
  cross-section and source classes) enter as parameters: the record `Cgs` holds the constants
  of namespace `cgs`, the record `Ext` the external functions.
* A member function that changes the object returns the new object.
-/

set_option autoImplicit false
set_option linter.unusedSectionVars false

namespace Crams

/-! ## External constants and functions -/

/-- Constants of namespace `cgs` (header `cgs.h`, not among the sources). -/
structure Cgs (α : Type) where
  GeV : α
  TeV : α
  c_light : α
  proton_mass_c2 : α
  mean_ism_mass : α
  inelasticity : α
  K_He : α
  f_He : α

/-- Modelled from the spec: `PID` (header `pid.h`, not among the sources) is an immutable pair
`(Z, A)` plus a tag that marks the tertiary proton channel. -/
structure PID where
  Z : Int
  A : Int
  isTertiary : Bool
  deriving DecidableEq, Repr

/-- Fields of `Params` (header `params.h`, not among the sources) that the sources read. -/
structure Params (α : Type) where
  D_0 : α
  delta : α
  ddelta : α
  smoothness : α
  R_b : α
  v_A : α
  H : α
  mu : α
  X_s : α
  id : Int

/-- Functions the sources call and do not define: `<cmath>` (`sqrt`, `exp`, `log`, `pow`), the
helpers of `utilities.h` (`LogAxis`, `LinearInterpolatorLog`, `pc_func`, `beta_func`), the
proton cross-section `sigma_pp`, the two constructors of `SpallationXsecs` followed by
`get_ISM`, the global `H1` and `operator==` of `PID`. -/
structure Ext (α : Type) where
  sqrt : α → α
  exp : α → α
  log : α → α
  pow : α → α → α
  LogAxis : α → α → Nat → List α
  LinearInterpolatorLog : List α → List α → α → α
  pc_func : Int → α → α
  beta_func : α → α
  sigma_pp : α → α
  SpallationXsecs : PID → PID → α → α
  SpallationXsecs_alt : PID → Bool → PID → α → α
  H1 : PID
  pid_eq : PID → PID → Bool

/-- Modelled from the spec: `pow2` of `utilities.h` (not among the sources) is the square; the
spec writes every term the code forms with `pow2` as a square. -/
def pow2 {α : Type} [LinearOrderedField α] (x : α) : α := x * x

/-! ## chi2.cpp -/

/-- One row of the data table (`data_point` of `chi2.h`). -/
structure data_point (α : Type) where
  R : α
  F : α
  F_err_low : α
  F_err_high : α

/-- Errors a C++ call can end with instead of returning. -/
inductive Raised where
  | domain_error
  deriving DecidableEq, Repr

/-- State of class `Chi2` that `compute_chi2` reads: the table `_data`, the potential `_phi`
and the virtual `get_model` of the concrete observable. -/
structure Chi2 (α : Type) where
  _data : List (data_point α)
  _phi : α
  get_model : α → α → α

variable {α : Type} [LinearOrderedField α]

/-- The body of the `for` loop of `Chi2::compute_chi2`, run over the remaining rows with the
accumulators `chi2` and `ndata`. -/
def Chi2.compute_chi2_loop (self : Chi2 α) (R_min R_max : α) :
    List (data_point α) → α × Nat → α × Nat
  | [], acc => acc
  | it :: rest, (chi2, ndata) =>
    if it.R > R_min ∧ it.R < R_max then
      let I_R_TOA := self.get_model it.R self._phi
      let delta_chi2 := pow2 (I_R_TOA - it.F)
      let delta_chi2 := delta_chi2 /
        (if I_R_TOA < it.R then pow2 it.F_err_low else pow2 it.F_err_high)
      Chi2.compute_chi2_loop self R_min R_max rest (chi2 + delta_chi2, ndata + 1)
    else
      Chi2.compute_chi2_loop self R_min R_max rest (chi2, ndata)

/-- `Chi2::compute_chi2`: the function has no `throw`; it always returns the quotient
`chi2 / (double) ndata`. -/
def Chi2.compute_chi2 (self : Chi2 α) (R_min R_max : α) : Except Raised α :=
  let acc := Chi2.compute_chi2_loop self R_min R_max self._data (0, 0)
  Except.ok (acc.1 / (acc.2 : α))

/-- The assignments to `point` in the loop of `Chi2::read_datafile`: the array `values` as it
stands after one pass of the stream extraction becomes the datum that is pushed onto `_data`,
`R` in GeV and the flux columns multiplied by `units`. -/
def read_datafile_point (c : Cgs α) (units : α) (values : α × α × α × α) : data_point α :=
  { R := values.1 * c.GeV
    F := values.2.1 * units
    F_err_low := values.2.2.1 * units
    F_err_high := values.2.2.2 * units }

/-! ### The chi-square of the specification -/

/-- The table with `F`, `F_err_low` and `F_err_high` of every datum multiplied by `k`. -/
def rescale (k : α) (data : List (data_point α)) : List (data_point α) :=
  data.map (fun d => { R := d.R, F := d.F * k, F_err_low := d.F_err_low * k,
                       F_err_high := d.F_err_high * k })


/-- Data of the table strictly inside the window `(R_min, R_max)`. -/
def spec_inside (data : List (data_point α)) (R_min R_max : α) : List (data_point α) :=
  data.filter (fun d => decide (R_min < d.R ∧ d.R < R_max))

/-- Error selected for a datum: `F_err_low` when the model is below `R_i`, else `F_err_high`. -/
def spec_error (M : α → α) (d : data_point α) : α :=
  if M d.R < d.R then d.F_err_low else d.F_err_high

/-- The formula of the specification, `(1/N) * Σ (M_i - F_i)^2 / e_i^2` over the data inside
the window, `N` their number. -/
def spec_chi2 (data : List (data_point α)) (M : α → α) (R_min R_max : α) : α :=
  (1 / ((spec_inside data R_min R_max).length : α)) *
    ((spec_inside data R_min R_max).map
      (fun d => (M d.R - d.F) ^ 2 / (spec_error M d) ^ 2)).sum


/-! ## particle.cpp -/

/-- A `SourceTerm` as the builders construct it: the axis and the tabulated values. -/
structure SourceTerm (α : Type) where
  T : List α
  Q : List α

/-- State of class `Particle` used by the functions embedded here.  `isDone` is the flag that
the accessor `isDone()` returns. -/
structure Particle (α : Type) where
  _pid : PID
  _efficiency : α
  _T : List α
  _I_T : List α
  isDone : Bool
  _Q_sec : Option (SourceTerm α)
  _Q_ter : Option (SourceTerm α)

/-- Modelled from the spec: `PID::get_Z_over_A` (header `pid.h`, not among the sources) is the
derived quantity `Z/A`. -/
def PID.get_Z_over_A (pid : PID) : α := (pid.Z : α) / (pid.A : α)

/-- The call `front()` of a `std::vector` (undefined on an empty vector, where this returns 0). -/
def front (v : List α) : α := v.headD 0

/-- The call `back()` of a `std::vector` (undefined on an empty vector, where this returns 0). -/
def back (v : List α) : α := v.getLastD 0

/-- `Particle::I_T_interpol`. -/
def Particle.I_T_interpol (u : Ext α) (self : Particle α) (T : α) : α :=
  u.LinearInterpolatorLog self._T self._I_T T

/-- `Particle::build_secondary_source`. -/
def Particle.build_secondary_source (c : Cgs α) (u : Ext α) (self : Particle α)
    (particles : List (Particle α)) (params : Params α) : Particle α :=
  let xsecs := if params.id = 0 then u.SpallationXsecs self._pid
    else u.SpallationXsecs_alt self._pid true
  let size := 100
  let T_s := u.LogAxis (0.1 * c.GeV) (10 * c.TeV) size
  let Q_s := T_s.map (fun T =>
    let value := particles.foldl (fun value particle =>
      if particle._pid.A > self._pid.A ∧ particle.isDone = true then
        value + xsecs particle._pid T * Particle.I_T_interpol u particle T
      else value) 0
    value / c.mean_ism_mass)
  { self with _Q_sec := some ⟨T_s, Q_s⟩ }

/-- The value `build_tertiary_source` holds for the axis point `T` when it enters the loop
over the particles (lines 71 to 77 of `particle.cpp`). -/
def tertiary_prefactor (c : Cgs α) (u : Ext α) (T : α) : α :=
  let T_prime := T / c.inelasticity
  let sigma_ISM := u.sigma_pp T_prime
  let sigma_ISM := sigma_ISM * ((1 + c.K_He * c.f_He) / (1 + c.f_He))
  let value := sigma_ISM / c.inelasticity
  let value := value * ((T_prime + c.proton_mass_c2) / (T + c.proton_mass_c2))
  value * (u.pow (T * (T + 2 * c.proton_mass_c2)) 1.5
    / u.pow (T_prime * (T_prime + 2 * c.proton_mass_c2)) 1.5)

/-- `Particle::build_tertiary_source`. -/
def Particle.build_tertiary_source (c : Cgs α) (u : Ext α) (self : Particle α)
    (particles : List (Particle α)) : Particle α :=
  let size := 100
  let T_t := u.LogAxis (0.1 * c.GeV) (10 * c.TeV) size
  let Q_t := T_t.map (fun T =>
    let T_prime := T / c.inelasticity
    let value := tertiary_prefactor c u T
    let value := particles.foldl (fun value particle =>
      if u.pid_eq particle._pid u.H1 = true ∧ particle.isDone = true then
        value * Particle.I_T_interpol u particle T_prime
      else value) value
    value / c.mean_ism_mass)
  { self with _Q_ter := some ⟨T_t, Q_t⟩ }

/-- Values of the table `_Q_ter` (none when the table has not been built). -/
def Particle.Q_ter_values (self : Particle α) : List α :=
  match self._Q_ter with
  | some t => t.Q
  | none => []

/-- Values of the table `_Q_sec` (none when the table has not been built). -/
def Particle.Q_sec_values (self : Particle α) : List α :=
  match self._Q_sec with
  | some t => t.Q
  | none => []

/-- The local `T_` of `I_R_LIS`, which is also the local `T_now` of `I_R_TOA`: the kinetic
energy at rigidity `R`. -/
def Particle.T_now (c : Cgs α) (u : Ext α) (self : Particle α) (R : α) : α :=
  let E_2 := pow2 (R * self._pid.get_Z_over_A) + pow2 c.proton_mass_c2
  u.sqrt E_2 - c.proton_mass_c2

/-- The local `dTdR` of `I_R_LIS` and of `I_R_TOA`. -/
def Particle.dTdR (c : Cgs α) (u : Ext α) (self : Particle α) (R : α) : α :=
  let mp_2 := pow2 c.proton_mass_c2
  let Z_A_squared := pow2 (self._pid.get_Z_over_A : α)
  let dTdR := R * Z_A_squared
  dTdR / u.sqrt (Z_A_squared * pow2 R + mp_2)

/-- `Particle::I_R_LIS`. -/
def Particle.I_R_LIS (c : Cgs α) (u : Ext α) (self : Particle α) (R : α) : α :=
  let T_ := Particle.T_now c u self R
  Particle.I_T_interpol u self T_ * Particle.dTdR c u self R

/-- The local `T_ISM` of `I_R_TOA`. -/
def Particle.T_ISM (c : Cgs α) (u : Ext α) (self : Particle α) (R modulation_potential : α) : α :=
  let Phi := self._pid.get_Z_over_A * modulation_potential
  min (Particle.T_now c u self R + Phi) (back self._T)

/-- The local `factor` of `I_R_TOA`. -/
def Particle.TOA_factor (c : Cgs α) (u : Ext α) (self : Particle α)
    (R modulation_potential : α) : α :=
  let mp_2 := pow2 c.proton_mass_c2
  (pow2 (Particle.T_now c u self R) - mp_2)
    / (pow2 (Particle.T_ISM c u self R modulation_potential) - mp_2)

/-- `Particle::I_R_TOA`. -/
def Particle.I_R_TOA (c : Cgs α) (u : Ext α) (self : Particle α)
    (R modulation_potential : α) : α :=
  let T_now := Particle.T_now c u self R
  if T_now > front self._T ∧ T_now < back self._T then
    Particle.TOA_factor c u self R modulation_potential
      * Particle.I_T_interpol u self (Particle.T_ISM c u self R modulation_potential)
      * Particle.dTdR c u self R
  else 0

/-- `Particle::run`.  The argument `compute_integral` is the value of
`Particle::compute_integral`, a nested GSL quadrature over the sub-objects of the particle,
which reads neither `_T` nor `_I_T`. -/
def Particle.run (compute_integral : α → α) (self : Particle α) (T : List α) :
    Particle α × Bool :=
  let self1 := { self with _T := T }
  let self2 := self1._T.foldl
    (fun (p : Particle α) T_now => { p with _I_T := p._I_T ++ [compute_integral T_now] }) self1
  (self2, decide (self2._I_T.length = self2._T.length))

/-! ## grammage.cpp -/

/-- Members of class `Grammage`. -/
structure Grammage (α : Type) where
  A : Int
  Z : Int
  factor : α
  v_A : α
  H : α
  D_0 : α
  R_b : α
  delta : α
  ddelta : α
  s : α

/-- The constructor `Grammage::Grammage(const PID&, const Params&)`. -/
def Grammage.new (c : Cgs α) (pid : PID) (params : Params α) : Grammage α :=
  { A := pid.A
    Z := pid.Z
    factor := params.mu * c.c_light / 2 / params.v_A
    v_A := params.v_A
    H := params.H
    D_0 := params.D_0
    R_b := params.R_b
    delta := params.delta
    ddelta := params.ddelta
    s := params.smoothness }

/-- `Grammage::D`. -/
def Grammage.D (c : Cgs α) (u : Ext α) (self : Grammage α) (T : α) : α :=
  let pc := u.pc_func self.A T
  let R := pc / (self.Z : α)
  let x := R / self.R_b
  let value := u.beta_func T * u.pow (R / c.GeV) self.delta
  let value := value / u.pow (1 + u.pow x (self.ddelta / self.s)) self.s
  self.D_0 * value + 2 * self.v_A * self.H

/-- `Grammage::get`. -/
def Grammage.get (c : Cgs α) (u : Ext α) (self : Grammage α) (T : α) : α :=
  let beta := u.beta_func T
  let value := beta * self.factor
  value * (1 - u.exp (-self.v_A * self.H / Grammage.D c u self T))

/-! ## Instances used for the concrete evaluations -/

/-- Modelled from the spec: `LinearInterpolatorLog` of `utilities.h` (not among the sources) as
the intensity interpolant of section 4.4, zero outside `[T_front, T_back]` and linear in
`(log T, log I)` between two neighbouring nodes. -/
def spec_LinearInterpolatorLog (log exp : α → α) : List α → List α → α → α
  | t0 :: t1 :: ts, i0 :: i1 :: is, x =>
    if x < t0 then 0
    else if x ≤ t1 then
      exp (log i0 + (log x - log t0) / (log t1 - log t0) * (log i1 - log i0))
    else spec_LinearInterpolatorLog log exp (t1 :: ts) (i1 :: is) x
  | _, _, _ => 0

/-- Modelled from the spec: `LogAxis` of `utilities.h` (not among the sources), `size`
log-spaced points from `lo` to `hi`. -/
def spec_LogAxis (pow : α → α → α) (lo hi : α) (size : Nat) : List α :=
  (List.range size).map (fun (i : Nat) => lo * pow (hi / lo) ((i : α) / ((size : α) - 1)))

/-- Sample constants in units `GeV = 1`, `c = 1`, with the proton mass `0.938 GeV`. -/
def sample_cgs : Cgs α :=
  { GeV := 1
    TeV := 1000
    c_light := 1
    proton_mass_c2 := 469 / 500
    mean_ism_mass := 1
    inelasticity := 1 / 2
    K_He := 5 / 4
    f_He := 1 / 10 }

/-- Sample constants in units `GeV = 1`, `c = 1`, with the proton mass taken as
`15/16 = 0.9375 GeV`, so that the rigidities used with it, their squares, the square roots
and the kinetic energies are dyadic numbers, which a `double` holds exactly. -/
def dyadic_cgs : Cgs α :=
  { GeV := 1
    TeV := 1000
    c_light := 1
    proton_mass_c2 := 15 / 16
    mean_ism_mass := 1
    inelasticity := 1 / 2
    K_He := 5 / 4
    f_He := 1 / 10 }

/-- The function `std::exp` on a `double` argument close to zero: for `-2^-60 < x ≤ 0` the
exponential lies above `1 - 2^-54`, the midpoint of the neighbouring doubles `1 - 2^-53` and
`1`, and the call returns exactly `1.0`.  Elsewhere the given `exp` is kept. -/
def exp_double (exp : α → α) (x : α) : α :=
  if -(1 / 2 ^ 60) < x ∧ x ≤ 0 then 1 else exp x

/-- Sample environment over given `<cmath>` functions: the helpers modelled from the spec,
the relativistic `pc` and `beta` of a nucleus with kinetic energy `T` per nucleon, unit
cross-sections, `H1 = (1, 1)` and structural equality of `PID`. -/
def sample_ext (sqrt exp log : α → α) (pow : α → α → α) : Ext α :=
  { sqrt := sqrt
    exp := exp
    log := log
    pow := pow
    LogAxis := spec_LogAxis pow
    LinearInterpolatorLog := spec_LinearInterpolatorLog log exp
    pc_func := fun A T => (A : α) * sqrt (T * (T + 2 * (469 / 500)))
    beta_func := fun T => sqrt (T * (T + 2 * (469 / 500))) / (T + 469 / 500)
    sigma_pp := fun _ => 1
    SpallationXsecs := fun _ _ _ => 1
    SpallationXsecs_alt := fun _ _ _ _ => 1
    H1 := ⟨1, 1, false⟩
    pid_eq := fun a b => decide (a = b) }

/-! ## Theorems -/

/-! ### chi2.cpp -/

/-- A row strictly inside the window is kept by `spec_inside`. -/
theorem spec_inside_cons_pos (it : data_point α) (rest : List (data_point α)) (R_min R_max : α)
    (h : R_min < it.R ∧ it.R < R_max) :
    spec_inside (it :: rest) R_min R_max = it :: spec_inside rest R_min R_max := by
  simp [spec_inside, List.filter_cons, h]

/-- A row not strictly inside the window is dropped by `spec_inside`. -/
theorem spec_inside_cons_neg (it : data_point α) (rest : List (data_point α)) (R_min R_max : α)
    (h : ¬ (R_min < it.R ∧ it.R < R_max)) :
    spec_inside (it :: rest) R_min R_max = spec_inside rest R_min R_max := by
  simp [spec_inside, List.filter_cons, h]

/-- The loop of `compute_chi2` adds to `chi2` the terms of the data inside the window and to
`ndata` their number. -/
theorem Chi2.loop_eq (self : Chi2 α) (R_min R_max : α) (data : List (data_point α))
    (chi2 : α) (ndata : Nat) :
    Chi2.compute_chi2_loop self R_min R_max data (chi2, ndata) =
      (chi2 + ((spec_inside data R_min R_max).map
          (fun d => (self.get_model d.R self._phi - d.F) ^ 2 /
            (spec_error (fun R => self.get_model R self._phi) d) ^ 2)).sum,
        ndata + (spec_inside data R_min R_max).length) := by
  induction data generalizing chi2 ndata with
  | nil => simp [Chi2.compute_chi2_loop, spec_inside]
  | cons it rest ih =>
    unfold Chi2.compute_chi2_loop
    by_cases h : it.R > R_min ∧ it.R < R_max
    · rw [if_pos h, ih, spec_inside_cons_pos it rest R_min R_max h]
      simp only [List.map_cons, List.sum_cons, List.length_cons, spec_error, pow2]
      refine Prod.ext ?_ ?_
      · simp only []
        split_ifs <;> ring
      · simp only []
        omega
    · rw [if_neg h, ih, spec_inside_cons_neg it rest R_min R_max h]

/-- Claim C1: for every table, every window with at least one datum strictly inside and every
model, `compute_chi2` returns `(1/N) * Σ (M_i - F_i)^2 / e_i^2` over exactly the data with
`R_min < R_i < R_max` (both bounds strict), with `M_i = get_model(R_i, phi)`, `N` the number of
these data (a non-zero divisor) and `e_i = F_err_low` when `M_i < R_i`, `F_err_high`
otherwise. -/
theorem compute_chi2_eq_spec (self : Chi2 α) (R_min R_max : α)
    (hN : 1 ≤ (spec_inside self._data R_min R_max).length) :
    Chi2.compute_chi2 self R_min R_max =
        Except.ok (spec_chi2 self._data (fun R => self.get_model R self._phi) R_min R_max) ∧
      ((spec_inside self._data R_min R_max).length : α) ≠ 0 := by
  refine ⟨?_, ?_⟩
  · simp only [Chi2.compute_chi2, Chi2.loop_eq, spec_chi2]
    congr 1
    simp only [zero_add, Nat.zero_add]
    rw [div_eq_mul_inv, mul_comm, one_div]
  · exact Nat.cast_ne_zero.mpr (by omega)

/-- Witness of C1 on the datum of the specification, `R = 10, F = 1, lo = 0.1, hi = 0.2`:
with the model `M = 0.5 < R` the divisor is `0.01` and the value is `0.25 / 0.01 = 25`; with
the model `M = 11 > R` the divisor is `0.04`. -/
theorem compute_chi2_eq_spec_witness :
    1 ≤ (spec_inside [(⟨10, 1, 1/10, 1/5⟩ : data_point ℚ)] 0 100).length ∧
      Chi2.compute_chi2 (⟨[⟨10, 1, 1/10, 1/5⟩], 0, fun _ _ => 1/2⟩ : Chi2 ℚ) 0 100 =
        Except.ok (spec_chi2 [(⟨10, 1, 1/10, 1/5⟩ : data_point ℚ)] (fun _ => 1/2) 0 100) ∧
      spec_chi2 [(⟨10, 1, 1/10, 1/5⟩ : data_point ℚ)] (fun _ => 1/2) 0 100 = 25 ∧
      spec_error (fun _ => 1/2) (⟨10, 1, 1/10, 1/5⟩ : data_point ℚ) ^ 2 = 1 / 100 ∧
      spec_error (fun _ => 11) (⟨10, 1, 1/10, 1/5⟩ : data_point ℚ) ^ 2 = 4 / 100 := by
  have h : 1 ≤ (spec_inside [(⟨10, 1, 1/10, 1/5⟩ : data_point ℚ)] 0 100).length := by
    norm_num [spec_inside, List.filter_cons]
  refine ⟨h, ?_, ?_, ?_, ?_⟩
  · exact (compute_chi2_eq_spec (⟨[⟨10, 1, 1/10, 1/5⟩], 0, fun _ _ => 1/2⟩ : Chi2 ℚ) 0 100 h).1
  · norm_num [spec_chi2, spec_inside, spec_error, List.filter_cons]
  · norm_num [spec_error]
  · norm_num [spec_error]

/-- Counterexample to C2: the table holds the single datum `R = 10` and the window is
`(10, 100)`, so no datum is strictly inside; `compute_chi2` returns the quotient `0 / 0`
and raises nothing. -/
theorem chi2_empty_window_returns :
    (spec_inside [(⟨10, 1, 1/10, 1/5⟩ : data_point ℚ)] 10 100).length = 0 ∧
      Chi2.compute_chi2 (⟨[⟨10, 1, 1/10, 1/5⟩], 0, fun _ _ => 1/2⟩ : Chi2 ℚ) 10 100 =
        Except.ok (0 / ((0 : Nat) : ℚ)) ∧
      Chi2.compute_chi2 (⟨[⟨10, 1, 1/10, 1/5⟩], 0, fun _ _ => 1/2⟩ : Chi2 ℚ) 10 100 ≠
        Except.error Raised.domain_error := by
  refine ⟨?_, ?_, ?_⟩
  · norm_num [spec_inside, List.filter_cons]
  · norm_num [Chi2.compute_chi2, Chi2.compute_chi2_loop]
  · simp [Chi2.compute_chi2]

/-- Claim C2, amended: `compute_chi2` never raises; when no datum lies strictly inside the
window both accumulators are still zero at the end of the loop and the value returned is the
quotient `0.0 / 0` (a NaN in IEEE arithmetic). -/
theorem compute_chi2_no_datum (self : Chi2 α) (R_min R_max : α)
    (hN : (spec_inside self._data R_min R_max).length = 0) :
    Chi2.compute_chi2_loop self R_min R_max self._data (0, 0) = (0, 0) ∧
      Chi2.compute_chi2 self R_min R_max = Except.ok (0 / ((0 : Nat) : α)) ∧
      ∀ e, Chi2.compute_chi2 self R_min R_max ≠ Except.error e := by
  have hnil : spec_inside self._data R_min R_max = [] := List.length_eq_zero.mp hN
  have hloop : Chi2.compute_chi2_loop self R_min R_max self._data (0, 0) = (0, 0) := by
    rw [Chi2.loop_eq, hnil]
    simp
  refine ⟨hloop, ?_, ?_⟩
  · simp only [Chi2.compute_chi2, hloop]
  · intro e
    simp [Chi2.compute_chi2]

/-- Witness of the amended C2 on the empty table. -/
theorem compute_chi2_no_datum_witness :
    (spec_inside ([] : List (data_point ℚ)) 0 1).length = 0 ∧
      Chi2.compute_chi2 (⟨[], 0, fun _ _ => 0⟩ : Chi2 ℚ) 0 1 = Except.ok (0 / ((0 : Nat) : ℚ)) :=
  ⟨rfl, (compute_chi2_no_datum (⟨[], 0, fun _ _ => 0⟩ : Chi2 ℚ) 0 1 rfl).2.1⟩

/-- The data that `read_datafile` pushes for a sequence of `values` with the units multiplier
`units * k` are the data it pushes with `units`, rescaled by `k`. -/
theorem read_datafile_point_units (c : Cgs α) (pushed : List (α × α × α × α)) (units k : α) :
    pushed.map (read_datafile_point c (units * k)) =
      rescale k (pushed.map (read_datafile_point c units)) := by
  simp [rescale, read_datafile_point, mul_assoc]

/-- Rescaling leaves the rigidities alone, so the same rows are inside the window. -/
theorem spec_inside_rescale (k : α) (data : List (data_point α)) (R_min R_max : α) :
    spec_inside (rescale k data) R_min R_max = rescale k (spec_inside data R_min R_max) := by
  induction data with
  | nil => simp [spec_inside, rescale]
  | cons d rest ih =>
    by_cases h : R_min < d.R ∧ d.R < R_max
    · have e1 : rescale k (d :: rest) =
          ⟨d.R, d.F * k, d.F_err_low * k, d.F_err_high * k⟩ :: rescale k rest := by
        simp [rescale]
      rw [e1, spec_inside_cons_pos d _ _ _ h,
        spec_inside_cons_pos ⟨d.R, d.F * k, d.F_err_low * k, d.F_err_high * k⟩ _ _ _ h, ih]
      simp [rescale]
    · have e1 : rescale k (d :: rest) =
          ⟨d.R, d.F * k, d.F_err_low * k, d.F_err_high * k⟩ :: rescale k rest := by
        simp [rescale]
      rw [e1, spec_inside_cons_neg d _ _ _ h,
        spec_inside_cons_neg ⟨d.R, d.F * k, d.F_err_low * k, d.F_err_high * k⟩ _ _ _ h, ih]

/-- Counterexample to C8: datum `R = 10, F = 1, lo = 0.1, hi = 0.2`, model `M = 0.5`, window
`(0, 100)` and `k = 2`.  The value is `25` before and `225/4` after the rescaling. -/
theorem chi2_rescaled_table_differs :
    Chi2.compute_chi2 (⟨[⟨10, 1, 1/10, 1/5⟩], 0, fun _ _ => 1/2⟩ : Chi2 ℚ) 0 100 =
        Except.ok 25 ∧
      Chi2.compute_chi2
          (⟨rescale 2 [⟨10, 1, 1/10, 1/5⟩], 0, fun _ _ => 1/2⟩ : Chi2 ℚ) 0 100 =
        Except.ok (225 / 4) ∧
      Chi2.compute_chi2
          (⟨rescale 2 [⟨10, 1, 1/10, 1/5⟩], 0, fun _ _ => 1/2⟩ : Chi2 ℚ) 0 100 ≠
        Chi2.compute_chi2 (⟨[⟨10, 1, 1/10, 1/5⟩], 0, fun _ _ => 1/2⟩ : Chi2 ℚ) 0 100 := by
  have h1 : Chi2.compute_chi2 (⟨[⟨10, 1, 1/10, 1/5⟩], 0, fun _ _ => 1/2⟩ : Chi2 ℚ) 0 100 =
        Except.ok 25 := by
    norm_num [Chi2.compute_chi2, Chi2.compute_chi2_loop, pow2]
  have h2 : Chi2.compute_chi2
          (⟨rescale 2 [⟨10, 1, 1/10, 1/5⟩], 0, fun _ _ => 1/2⟩ : Chi2 ℚ) 0 100 =
        Except.ok (225 / 4) := by
    norm_num [Chi2.compute_chi2, Chi2.compute_chi2_loop, pow2, rescale]
  refine ⟨h1, h2, ?_⟩
  rw [h1, h2]
  intro h
  have h3 := Except.ok.inj h
  norm_num at h3

/-- Claim C8, amended: multiplying `F`, `F_err_low`, `F_err_high` of every datum and the model
value at every datum inside the window by the same `k > 0` leaves `compute_chi2` unchanged,
provided each of these data selects the same error bar before and after (the test
`M_i < R_i` compares the model with the rigidity, which is not rescaled). -/
theorem compute_chi2_rescale (data : List (data_point α)) (phi R_min R_max k : α)
    (M M2 : α → α → α) (hk : 0 < k)
    (hM : ∀ d ∈ spec_inside data R_min R_max, M2 d.R phi = M d.R phi * k)
    (hsel : ∀ d ∈ spec_inside data R_min R_max, (M2 d.R phi < d.R ↔ M d.R phi < d.R)) :
    Chi2.compute_chi2 ⟨rescale k data, phi, M2⟩ R_min R_max =
      Chi2.compute_chi2 ⟨data, phi, M⟩ R_min R_max := by
  have hk0 : k ≠ 0 := ne_of_gt hk
  simp only [Chi2.compute_chi2, Chi2.loop_eq, spec_inside_rescale]
  have hlen : (rescale k (spec_inside data R_min R_max)).length =
      (spec_inside data R_min R_max).length := by simp [rescale]
  have hsum : ∀ l : List (data_point α),
      (∀ d ∈ l, M2 d.R phi = M d.R phi * k) →
      (∀ d ∈ l, (M2 d.R phi < d.R ↔ M d.R phi < d.R)) →
      ((rescale k l).map (fun d => (M2 d.R phi - d.F) ^ 2 /
          (spec_error (fun R => M2 R phi) d) ^ 2)).sum =
        (l.map (fun d => (M d.R phi - d.F) ^ 2 /
          (spec_error (fun R => M R phi) d) ^ 2)).sum := by
    intro l
    induction l with
    | nil => intro _ _; simp [rescale]
    | cons d rest ih =>
      intro h1 h2
      have ih2 := ih (fun x hx => h1 x (List.mem_cons_of_mem _ hx))
        (fun x hx => h2 x (List.mem_cons_of_mem _ hx))
      have e1 : rescale k (d :: rest) =
          ⟨d.R, d.F * k, d.F_err_low * k, d.F_err_high * k⟩ :: rescale k rest := by
        simp [rescale]
      rw [e1, List.map_cons, List.sum_cons, List.map_cons, List.sum_cons, ih2]
      congr 1
      have hd1 := h1 d (List.mem_cons_self _ _)
      have hd2 := h2 d (List.mem_cons_self _ _)
      simp only [spec_error, hd1]
      by_cases hlt : M d.R phi < d.R
      · have hlt2 : M d.R phi * k < d.R := by rw [← hd1]; exact hd2.mpr hlt
        rw [if_pos hlt, if_pos hlt2]
        rw [← sub_mul, mul_pow, mul_pow]
        exact mul_div_mul_right _ _ (pow_ne_zero 2 hk0)
      · have hlt2 : ¬ M d.R phi * k < d.R := by rw [← hd1]; exact fun h => hlt (hd2.mp h)
        rw [if_neg hlt, if_neg hlt2]
        rw [← sub_mul, mul_pow, mul_pow]
        exact mul_div_mul_right _ _ (pow_ne_zero 2 hk0)
  simp only [hlen, hsum _ hM hsel]

/-! ### particle.cpp -/

/-- A loop whose guarded update never fires leaves the accumulator as it was. -/
theorem foldl_guard_never {β γ : Type} (cond : γ → Prop) [DecidablePred cond]
    (upd : β → γ → β) (l : List γ) (init : β) (h : ∀ x ∈ l, ¬ cond x) :
    l.foldl (fun v x => if cond x then upd v x else v) init = init := by
  induction l generalizing init with
  | nil => rfl
  | cons x rest ih =>
    rw [List.foldl_cons, if_neg (h x (List.mem_cons_self _ _))]
    exact ih init (fun y hy => h y (List.mem_cons_of_mem _ hy))

/-- Claim C5: for every species, every cross-section provider, every `params` and every
particle list in which no particle is both done and of mass number above `A(p)`, the table
built by `build_secondary_source` has one value for each of the 100 axis points and every
value is exactly zero. -/
theorem build_secondary_source_vanishes (c : Cgs α) (u : Ext α) (self : Particle α)
    (particles : List (Particle α)) (params : Params α)
    (haxis : (u.LogAxis (0.1 * c.GeV) (10 * c.TeV) 100).length = 100)
    (hnone : ∀ q ∈ particles, ¬ (q._pid.A > self._pid.A ∧ q.isDone = true)) :
    (Particle.build_secondary_source c u self particles params)._Q_sec =
        some ⟨u.LogAxis (0.1 * c.GeV) (10 * c.TeV) 100,
          (Particle.build_secondary_source c u self particles params).Q_sec_values⟩ ∧
      (Particle.build_secondary_source c u self particles params).Q_sec_values.length = 100 ∧
      (∀ q ∈ (Particle.build_secondary_source c u self particles params).Q_sec_values, q = 0) ∧
      (Particle.build_secondary_source c u self particles params).Q_sec_values =
        List.replicate 100 0 := by
  have hlen : (Particle.build_secondary_source c u self particles params).Q_sec_values.length
      = 100 := by
    simp [Particle.build_secondary_source, Particle.Q_sec_values, haxis]
  have hzero : ∀ q ∈ (Particle.build_secondary_source c u self particles params).Q_sec_values,
      q = 0 := by
    intro q hq
    simp only [Particle.build_secondary_source, Particle.Q_sec_values, List.mem_map] at hq
    obtain ⟨T, _, hT⟩ := hq
    rw [← hT]
    rw [foldl_guard_never (fun particle : Particle α =>
      particle._pid.A > self._pid.A ∧ particle.isDone = true) _ particles 0 hnone]
    exact zero_div _
  exact ⟨rfl, hlen, hzero, List.eq_replicate_iff.mpr ⟨hlen, hzero⟩⟩

/-- The axis modelled from the spec has `size` points. -/
theorem spec_LogAxis_length (pow : α → α → α) (lo hi : α) (size : Nat) :
    (spec_LogAxis pow lo hi size).length = size := by
  simp [spec_LogAxis]

/-- The axis modelled from the spec is positive when it starts at a positive energy. -/
theorem spec_LogAxis_pos (pow : α → α → α) (lo hi : α) (size : Nat) (hlo : 0 < lo)
    (hhi : 0 < hi) (hpow : ∀ x y, 0 < x → 0 < pow x y) :
    ∀ T ∈ spec_LogAxis pow lo hi size, 0 < T := by
  intro T hT
  simp only [spec_LogAxis, List.mem_map] at hT
  obtain ⟨i, _, hi2⟩ := hT
  rw [← hi2]
  exact mul_pos hlo (hpow _ _ (div_pos hhi hlo))

/-- Witness of C5: boron-10 against a carbon-12 that is not done and a lithium-7 that is
done, over the real `<cmath>` functions. -/
theorem build_secondary_source_vanishes_witness :
    (Particle.build_secondary_source sample_cgs
        (sample_ext Real.sqrt Real.exp Real.log Real.rpow)
        (⟨⟨5, 10, false⟩, 1, [], [], false, none, none⟩ : Particle ℝ)
        [⟨⟨6, 12, false⟩, 1, [1, 2], [1, 1], false, none, none⟩,
         ⟨⟨3, 7, false⟩, 1, [1, 2], [1, 1], true, none, none⟩]
        ⟨1, 1, 1, 1, 1, 1, 1, 1, 1, 0⟩).Q_sec_values = List.replicate 100 0 :=
  (build_secondary_source_vanishes sample_cgs
    (sample_ext Real.sqrt Real.exp Real.log Real.rpow)
    (⟨⟨5, 10, false⟩, 1, [], [], false, none, none⟩ : Particle ℝ)
    [⟨⟨6, 12, false⟩, 1, [1, 2], [1, 1], false, none, none⟩,
     ⟨⟨3, 7, false⟩, 1, [1, 2], [1, 1], true, none, none⟩]
    ⟨1, 1, 1, 1, 1, 1, 1, 1, 1, 0⟩
    (spec_LogAxis_length _ _ _ _)
    (by
      intro q hq
      simp only [List.mem_cons, List.mem_singleton, List.not_mem_nil, or_false] at hq
      rcases hq with rfl | rfl
      · simp
      · simp)).2.2.2

/-- With no particle that is both equal to `H1` and done, the loop over the particles in
`build_tertiary_source` multiplies nothing in: every table value is the kinematic factor
divided by the mean ISM mass. -/
theorem build_tertiary_source_without_H1 (c : Cgs α) (u : Ext α) (self : Particle α)
    (particles : List (Particle α))
    (hnone : ∀ q ∈ particles, ¬ (u.pid_eq q._pid u.H1 = true ∧ q.isDone = true)) :
    (Particle.build_tertiary_source c u self particles).Q_ter_values =
      (u.LogAxis (0.1 * c.GeV) (10 * c.TeV) 100).map
        (fun T => tertiary_prefactor c u T / c.mean_ism_mass) := by
  simp only [Particle.build_tertiary_source, Particle.Q_ter_values]
  refine List.map_congr_left ?_
  intro T _
  rw [foldl_guard_never (fun particle : Particle α =>
    u.pid_eq particle._pid u.H1 = true ∧ particle.isDone = true) _ particles _ hnone]

/-- The kinematic factor of `build_tertiary_source` is strictly positive at a positive energy
for positive constants, a positive cross-section and a `pow` that is positive on positive
bases. -/
theorem tertiary_prefactor_pos (c : Cgs α) (u : Ext α) (T : α) (hT : 0 < T)
    (hk : 0 < c.inelasticity) (hm : 0 < c.proton_mass_c2) (hK : 0 ≤ c.K_He) (hf : 0 ≤ c.f_He)
    (hsig : ∀ x, 0 < x → 0 < u.sigma_pp x) (hpow : ∀ x y, 0 < x → 0 < u.pow x y) :
    0 < tertiary_prefactor c u T := by
  have hTp : 0 < T / c.inelasticity := div_pos hT hk
  have h1 : 0 < (1 + c.K_He * c.f_He) / (1 + c.f_He) :=
    div_pos (by positivity) (by positivity)
  have h2 : 0 < (T / c.inelasticity + c.proton_mass_c2) / (T + c.proton_mass_c2) :=
    div_pos (by positivity) (by positivity)
  have h3 : 0 < u.pow (T * (T + 2 * c.proton_mass_c2)) 1.5 :=
    hpow _ _ (by positivity)
  have h4 : 0 < u.pow (T / c.inelasticity * (T / c.inelasticity + 2 * c.proton_mass_c2)) 1.5 :=
    hpow _ _ (by positivity)
  have h5 := hsig _ hTp
  simp only [tertiary_prefactor]
  exact mul_pos (mul_pos (div_pos (mul_pos h5 h1) hk) h2) (div_pos h3 h4)

/-- Claim C3 on the empty particle list, where no species is equal to `H1` and done: over
the real `<cmath>` functions and the sample constants, `build_tertiary_source` builds 100
values and none of them is zero. -/
theorem build_tertiary_source_empty_nonzero :
    (Particle.build_tertiary_source sample_cgs
        (sample_ext Real.sqrt Real.exp Real.log Real.rpow)
        (⟨⟨1, 1, true⟩, 1, [], [], false, none, none⟩ : Particle ℝ) []).Q_ter_values.length
        = 100 ∧
      (0 : ℝ) ∉ (Particle.build_tertiary_source sample_cgs
        (sample_ext Real.sqrt Real.exp Real.log Real.rpow)
        (⟨⟨1, 1, true⟩, 1, [], [], false, none, none⟩ : Particle ℝ) []).Q_ter_values := by
  have hpow : ∀ x y : ℝ, 0 < x → 0 < Real.rpow x y := fun x y hx => Real.rpow_pos_of_pos hx y
  rw [build_tertiary_source_without_H1 _ _ _ _ (by simp)]
  refine ⟨?_, ?_⟩
  · simp [sample_ext, spec_LogAxis]
  · intro h0
    rw [List.mem_map] at h0
    obtain ⟨T, hT, hval⟩ := h0
    have hTpos : 0 < T :=
      spec_LogAxis_pos Real.rpow _ _ 100 (by norm_num [sample_cgs]) (by norm_num [sample_cgs])
        hpow T hT
    have hpre := tertiary_prefactor_pos sample_cgs
      (sample_ext Real.sqrt Real.exp Real.log Real.rpow) T hTpos
      (by norm_num [sample_cgs]) (by norm_num [sample_cgs]) (by norm_num [sample_cgs])
      (by norm_num [sample_cgs]) (by intro x _; norm_num [sample_ext]) hpow
    have hm : (0 : ℝ) < (sample_cgs : Cgs ℝ).mean_ism_mass := by norm_num [sample_cgs]
    exact absurd hval (ne_of_gt (div_pos hpre hm))

/-- The loop of `run` appends one computed value for each point of the grid. -/
theorem run_foldl_eq (compute_integral : α → α) (T : List α) (p : Particle α) :
    T.foldl (fun (p : Particle α) T_now =>
        { p with _I_T := p._I_T ++ [compute_integral T_now] }) p =
      { p with _I_T := p._I_T ++ T.map compute_integral } := by
  induction T generalizing p with
  | nil => simp
  | cons t rest ih => simp [List.foldl_cons, ih]

/-- Counterexample to C7: a fresh particle is run on the grid `[1, 2]`; the state it leaves
has two intensities and two grid points.  Running this state on `[1, 2]` again leaves four
intensities for two grid points, and `run` returns false. -/
theorem run_twice_breaks_length :
    (Particle.run (fun T => T)
        (⟨⟨6, 12, false⟩, 1, [], [], false, none, none⟩ : Particle ℚ) [1, 2]).1._I_T.length =
      (Particle.run (fun T => T)
        (⟨⟨6, 12, false⟩, 1, [], [], false, none, none⟩ : Particle ℚ) [1, 2]).1._T.length ∧
    (Particle.run (fun T => T)
      (Particle.run (fun T => T)
        (⟨⟨6, 12, false⟩, 1, [], [], false, none, none⟩ : Particle ℚ) [1, 2]).1
      [1, 2]).1._I_T.length = 4 ∧
    (Particle.run (fun T => T)
      (Particle.run (fun T => T)
        (⟨⟨6, 12, false⟩, 1, [], [], false, none, none⟩ : Particle ℚ) [1, 2]).1
      [1, 2]).1._T.length = 2 ∧
    (Particle.run (fun T => T)
      (Particle.run (fun T => T)
        (⟨⟨6, 12, false⟩, 1, [], [], false, none, none⟩ : Particle ℚ) [1, 2]).1
      [1, 2]).2 = false := by
  simp [Particle.run]

/-- Claim C7, amended: after `run(T)` the stored grid is `T` and the stored intensities are
the ones stored before followed by one value for each grid point, so their number is the
earlier number plus the length of `T`; the two lengths agree, and `run` returns true, exactly
when no intensity was stored before the call (a freshly constructed particle). -/
theorem run_length (compute_integral : α → α) (self : Particle α) (T : List α) :
    (Particle.run compute_integral self T).1._T = T ∧
      (Particle.run compute_integral self T).1._I_T = self._I_T ++ T.map compute_integral ∧
      (Particle.run compute_integral self T).1._I_T.length = self._I_T.length + T.length ∧
      ((Particle.run compute_integral self T).1._I_T.length =
          (Particle.run compute_integral self T).1._T.length ↔ self._I_T = []) ∧
      ((Particle.run compute_integral self T).2 = true ↔ self._I_T = []) := by
  have hlen : (self._I_T.length + T.length = T.length) ↔ self._I_T = [] := by
    rw [← List.length_eq_zero]
    omega
  simp [Particle.run, run_foldl_eq, hlen]

/-- On a non-empty vector `front` is the first element. -/
theorem front_eq_head (v : List α) (h : v ≠ []) : front v = v.head h := by
  cases v with
  | nil => exact absurd rfl h
  | cons a l => simp [front]

/-- On a non-empty vector `back` is the last element. -/
theorem back_eq_getLast (v : List α) (h : v ≠ []) : back v = v.getLast h := by
  cases v with
  | nil => exact absurd rfl h
  | cons a l => simp [back, List.getLastD_eq_getLast?, List.getLast?_eq_getLast]

/-- The local `T_ISM` lies in the grid whenever the guard of `I_R_TOA` holds. -/
theorem T_ISM_bounds (c : Cgs α) (u : Ext α) (self : Particle α) (R phi : α)
    (hZA : 0 ≤ (self._pid.get_Z_over_A : α)) (hphi : 0 ≤ phi)
    (hg : Particle.T_now c u self R > front self._T ∧ Particle.T_now c u self R < back self._T) :
    Particle.T_now c u self R ≤ Particle.T_ISM c u self R phi ∧
      front self._T < Particle.T_ISM c u self R phi ∧
      Particle.T_ISM c u self R phi ≤ back self._T := by
  have hPhi : 0 ≤ self._pid.get_Z_over_A * phi := mul_nonneg hZA hphi
  have h1 : Particle.T_now c u self R ≤ Particle.T_ISM c u self R phi := by
    simp only [Particle.T_ISM]
    exact le_min (by linarith) (le_of_lt hg.2)
  exact ⟨h1, lt_of_lt_of_le hg.1 h1, by simp only [Particle.T_ISM]; exact min_le_right _ _⟩

/-- Claim C10: for a species with `Z/A ≥ 0` and a non-empty grid (on which `front` and `back`
are the first and the last grid point), every `R` and every `phi ≥ 0`, `I_R_TOA` returns 0
unless `T_front < T_now < T_back`, so also for every `T_now ≥ T_back` and every
`T_now ≤ T_front`; when it evaluates the interpolant it does so once, at
`T_ISM = min(T_now + (Z/A) phi, T_back)` with `T_front < T_ISM ≤ T_back`, so its value is the
same for any two interpolators that agree on the grid interval `(T_front, T_back]`. -/
theorem I_R_TOA_in_grid (c : Cgs α) (u : Ext α) (self : Particle α) (R phi : α)
    (hZA : 0 ≤ (self._pid.get_Z_over_A : α)) (hgrid : self._T ≠ []) (hphi : 0 ≤ phi) :
    (front self._T = self._T.head hgrid ∧ back self._T = self._T.getLast hgrid) ∧
      (¬ (front self._T < Particle.T_now c u self R ∧
            Particle.T_now c u self R < back self._T) →
          Particle.I_R_TOA c u self R phi = 0) ∧
      (back self._T ≤ Particle.T_now c u self R → Particle.I_R_TOA c u self R phi = 0) ∧
      (Particle.T_now c u self R ≤ front self._T → Particle.I_R_TOA c u self R phi = 0) ∧
      (front self._T < Particle.T_now c u self R ∧
            Particle.T_now c u self R < back self._T →
          Particle.T_ISM c u self R phi =
              min (Particle.T_now c u self R + self._pid.get_Z_over_A * phi) (back self._T) ∧
            front self._T < Particle.T_ISM c u self R phi ∧
            Particle.T_ISM c u self R phi ≤ back self._T ∧
            Particle.I_R_TOA c u self R phi =
              Particle.TOA_factor c u self R phi
                * u.LinearInterpolatorLog self._T self._I_T (Particle.T_ISM c u self R phi)
                * Particle.dTdR c u self R) ∧
      (∀ f : List α → List α → α → α,
          (∀ x, front self._T < x → x ≤ back self._T →
            f self._T self._I_T x = u.LinearInterpolatorLog self._T self._I_T x) →
          Particle.I_R_TOA c { u with LinearInterpolatorLog := f } self R phi =
            Particle.I_R_TOA c u self R phi) := by
  have hout : ¬ (front self._T < Particle.T_now c u self R ∧
      Particle.T_now c u self R < back self._T) → Particle.I_R_TOA c u self R phi = 0 := by
    intro h
    have h2 : ¬ (Particle.T_now c u self R > front self._T ∧
        Particle.T_now c u self R < back self._T) := h
    simp only [Particle.I_R_TOA, if_neg h2]
  refine ⟨⟨?_, ?_⟩, hout, ?_, ?_, ?_, ?_⟩
  · exact front_eq_head _ hgrid
  · exact back_eq_getLast _ hgrid
  · intro h
    exact hout (fun hg => absurd hg.2 (not_lt.mpr h))
  · intro h
    exact hout (fun hg => absurd hg.1 (not_lt.mpr h))
  · intro hg
    have hg2 : Particle.T_now c u self R > front self._T ∧
        Particle.T_now c u self R < back self._T := hg
    have hb := T_ISM_bounds c u self R phi hZA hphi hg2
    refine ⟨rfl, hb.2.1, hb.2.2, ?_⟩
    simp only [Particle.I_R_TOA, if_pos hg2, Particle.I_T_interpol]
  · intro f hf
    by_cases hg : Particle.T_now c u self R > front self._T ∧
        Particle.T_now c u self R < back self._T
    · have hb := T_ISM_bounds c u self R phi hZA hphi hg
      have e := hf _ hb.2.1 hb.2.2
      have hg3 : Particle.T_now c { u with LinearInterpolatorLog := f } self R > front self._T ∧
          Particle.T_now c { u with LinearInterpolatorLog := f } self R < back self._T := hg
      simp only [Particle.I_R_TOA, if_pos hg, if_pos hg3, Particle.I_T_interpol]
      have e2 : Particle.T_ISM c { u with LinearInterpolatorLog := f } self R phi =
          Particle.T_ISM c u self R phi := rfl
      rw [e2, e]
      rfl
    · have hg3 : ¬ (Particle.T_now c { u with LinearInterpolatorLog := f } self R >
            front self._T ∧
          Particle.T_now c { u with LinearInterpolatorLog := f } self R < back self._T) := hg
      simp only [Particle.I_R_TOA, if_neg hg, if_neg hg3]

/-- Sample proton at rigidity `0.7035 GV`: total energy `1.1725 GeV`, kinetic energy
`0.2345 GeV`. -/
theorem T_now_sample_low (e : ℝ) (T I : List ℝ) (d : Bool) (qs qt : Option (SourceTerm ℝ)) :
    Particle.T_now sample_cgs (sample_ext Real.sqrt Real.exp Real.log Real.rpow)
      ⟨⟨1, 1, false⟩, e, T, I, d, qs, qt⟩ (1407 / 2000) = 469 / 2000 := by
  have h : pow2 ((1407 / 2000 : ℝ) * PID.get_Z_over_A ⟨1, 1, false⟩) + pow2 (469 / 500 : ℝ)
      = (469 / 400) * (469 / 400) := by
    norm_num [pow2, PID.get_Z_over_A]
  simp only [Particle.T_now, sample_cgs, sample_ext]
  rw [h, Real.sqrt_mul_self (by norm_num)]
  norm_num

/-- The interpolant modelled from the spec is the constant 1 on the grid interval of a two-point
table with both intensities 1. -/
theorem spec_interpol_flat (t0 t1 x : ℝ) (h0 : t0 ≤ x) (h1 : x ≤ t1) :
    spec_LinearInterpolatorLog Real.log Real.exp [t0, t1] [1, 1] x = 1 := by
  simp [spec_LinearInterpolatorLog, not_lt.mpr h0, h1]

/-- The interpolant modelled from the spec is non-negative on a two-point table. -/
theorem spec_interpol_nonneg (t0 t1 i0 i1 x : ℝ) :
    0 ≤ spec_LinearInterpolatorLog Real.log Real.exp [t0, t1] [i0, i1] x := by
  simp only [spec_LinearInterpolatorLog]
  split_ifs
  · exact le_refl _
  · exact le_of_lt (Real.exp_pos _)
  · exact le_refl _

/-- The interpolant modelled from the spec is 1 between the first two nodes of a table whose
first two intensities are 1. -/
theorem spec_interpol_first_flat (t0 t1 x : ℝ) (ts is : List ℝ) (h0 : t0 ≤ x) (h1 : x ≤ t1) :
    spec_LinearInterpolatorLog Real.log Real.exp (t0 :: t1 :: ts) (1 :: 1 :: is) x = 1 := by
  simp [spec_LinearInterpolatorLog, not_lt.mpr h0, h1]

/-- The interpolant modelled from the spec returns the last intensity at the last node of the
table `T = [1/8, 2, 4]`, `I = [1, 1, 100]`. -/
theorem spec_interpol_rising_back :
    spec_LinearInterpolatorLog Real.log Real.exp [1 / 8, 2, 4] [1, 1, 100] 4 = 100 := by
  have hne : Real.log 4 - Real.log 2 ≠ 0 :=
    sub_ne_zero.mpr (ne_of_gt (Real.log_lt_log (by norm_num) (by norm_num)))
  have h1 : ¬ ((4 : ℝ) < 1 / 8) := by norm_num
  have h2 : ¬ ((4 : ℝ) ≤ 2) := by norm_num
  have h3 : ¬ ((4 : ℝ) < 2) := by norm_num
  simp only [spec_LinearInterpolatorLog, if_neg h1, if_neg h2, if_neg h3, le_refl, if_true]
  rw [div_self hne, Real.log_one, one_mul, sub_zero, zero_add, Real.exp_log (by norm_num)]

/-- Proton at rigidity `45/64 GV` with the proton mass `15/16`: total energy `75/64`, kinetic
energy `15/64`, all dyadic. -/
theorem T_now_dyadic_low (e : ℝ) (T I : List ℝ) (d : Bool) (qs qt : Option (SourceTerm ℝ)) :
    Particle.T_now dyadic_cgs (sample_ext Real.sqrt Real.exp Real.log Real.rpow)
      ⟨⟨1, 1, false⟩, e, T, I, d, qs, qt⟩ (45 / 64) = 15 / 64 := by
  have h : pow2 ((45 / 64 : ℝ) * PID.get_Z_over_A ⟨1, 1, false⟩) + pow2 (15 / 16 : ℝ)
      = (75 / 64) * (75 / 64) := by
    norm_num [pow2, PID.get_Z_over_A]
  simp only [Particle.T_now, dyadic_cgs, sample_ext]
  rw [h, Real.sqrt_mul_self (by norm_num)]
  norm_num

/-- Slope `dT/dR = 3/5` of the proton at rigidity `45/64 GV`. -/
theorem dTdR_dyadic_low (e : ℝ) (T I : List ℝ) (d : Bool) (qs qt : Option (SourceTerm ℝ)) :
    Particle.dTdR dyadic_cgs (sample_ext Real.sqrt Real.exp Real.log Real.rpow)
      ⟨⟨1, 1, false⟩, e, T, I, d, qs, qt⟩ (45 / 64) = 3 / 5 := by
  have h : pow2 (PID.get_Z_over_A ⟨1, 1, false⟩ : ℝ) * pow2 (45 / 64 : ℝ)
      + pow2 (15 / 16 : ℝ) = (75 / 64) * (75 / 64) := by
    norm_num [pow2, PID.get_Z_over_A]
  simp only [Particle.dTdR, dyadic_cgs, sample_ext]
  rw [h, Real.sqrt_mul_self (by norm_num)]
  norm_num [pow2, PID.get_Z_over_A]

/-- Proton at rigidity `225/128 GV` with the proton mass `15/16`: total energy `255/128`,
kinetic energy `135/128`, above the proton mass. -/
theorem T_now_dyadic_high (e : ℝ) (T I : List ℝ) (d : Bool) (qs qt : Option (SourceTerm ℝ)) :
    Particle.T_now dyadic_cgs (sample_ext Real.sqrt Real.exp Real.log Real.rpow)
      ⟨⟨1, 1, false⟩, e, T, I, d, qs, qt⟩ (225 / 128) = 135 / 128 := by
  have h : pow2 ((225 / 128 : ℝ) * PID.get_Z_over_A ⟨1, 1, false⟩) + pow2 (15 / 16 : ℝ)
      = (255 / 128) * (255 / 128) := by
    norm_num [pow2, PID.get_Z_over_A]
  simp only [Particle.T_now, dyadic_cgs, sample_ext]
  rw [h, Real.sqrt_mul_self (by norm_num)]
  norm_num

/-- Slope `dT/dR = 15/17` of the proton at rigidity `225/128 GV`. -/
theorem dTdR_dyadic_high (e : ℝ) (T I : List ℝ) (d : Bool) (qs qt : Option (SourceTerm ℝ)) :
    Particle.dTdR dyadic_cgs (sample_ext Real.sqrt Real.exp Real.log Real.rpow)
      ⟨⟨1, 1, false⟩, e, T, I, d, qs, qt⟩ (225 / 128) = 15 / 17 := by
  have h : pow2 (PID.get_Z_over_A ⟨1, 1, false⟩ : ℝ) * pow2 (225 / 128 : ℝ)
      + pow2 (15 / 16 : ℝ) = (255 / 128) * (255 / 128) := by
    norm_num [pow2, PID.get_Z_over_A]
  simp only [Particle.dTdR, dyadic_cgs, sample_ext]
  rw [h, Real.sqrt_mul_self (by norm_num)]
  norm_num [pow2, PID.get_Z_over_A]

/-- Counterexample to C4, over the real `<cmath>` functions, the interpolant modelled from the
spec and the constants `dyadic_cgs` (proton mass `15/16`), for a proton (`Z/A = 1`).  Every
rigidity, energy and grid point below is dyadic and every square root is exact, so a `double`
computes the same `T_now`.
(A) Grid `[15/64, 8192]`, table `[1, 1]`, `R = 45/64`, `phi = 0`: `T_now = 15/64` is the end
point `T_front`, `I_R_TOA(R, 0)` is 0 and `I_R_LIS(R)` is `3/5`.
(B) Grid `[1/8, 8192]`, table `[1, 1]`, `R = 45/64`, `phi = 1/2`: `T_ISM = 47/64` is below the
proton mass, the factor is `3375/1391 > 1` and `I_R_TOA` exceeds `I_R_LIS = 3/5`.
(C) Grid `[1/8, 2, 4]`, table `[1, 1, 100]`, `R = 225/128`, `phi = 8`: `T_now = 135/128` is
above the proton mass, `T_ISM = T_back = 4` where the intensity is 100 against 1 at `T_now`,
and `I_R_TOA = (3825/247744) * 100 * (15/17)` exceeds `I_R_LIS = 15/17`. -/
theorem I_R_TOA_exceeds_LIS :
    (Particle.I_R_TOA dyadic_cgs (sample_ext Real.sqrt Real.exp Real.log Real.rpow)
          ⟨⟨1, 1, false⟩, 1, [15 / 64, 8192], [1, 1], true, none, none⟩ (45 / 64) 0 = 0 ∧
      Particle.I_R_LIS dyadic_cgs (sample_ext Real.sqrt Real.exp Real.log Real.rpow)
          ⟨⟨1, 1, false⟩, 1, [15 / 64, 8192], [1, 1], true, none, none⟩ (45 / 64) = 3 / 5) ∧
    (Particle.I_R_LIS dyadic_cgs (sample_ext Real.sqrt Real.exp Real.log Real.rpow)
          ⟨⟨1, 1, false⟩, 1, [1 / 8, 8192], [1, 1], true, none, none⟩ (45 / 64) = 3 / 5 ∧
      Particle.I_R_TOA dyadic_cgs (sample_ext Real.sqrt Real.exp Real.log Real.rpow)
          ⟨⟨1, 1, false⟩, 1, [1 / 8, 8192], [1, 1], true, none, none⟩ (45 / 64) (1 / 2)
        = 3375 / 1391 * (3 / 5) ∧
      ¬ (Particle.I_R_TOA dyadic_cgs (sample_ext Real.sqrt Real.exp Real.log Real.rpow)
          ⟨⟨1, 1, false⟩, 1, [1 / 8, 8192], [1, 1], true, none, none⟩ (45 / 64) (1 / 2)
        ≤ Particle.I_R_LIS dyadic_cgs (sample_ext Real.sqrt Real.exp Real.log Real.rpow)
          ⟨⟨1, 1, false⟩, 1, [1 / 8, 8192], [1, 1], true, none, none⟩ (45 / 64))) ∧
    (Particle.I_R_LIS dyadic_cgs (sample_ext Real.sqrt Real.exp Real.log Real.rpow)
          ⟨⟨1, 1, false⟩, 1, [1 / 8, 2, 4], [1, 1, 100], true, none, none⟩ (225 / 128)
        = 15 / 17 ∧
      Particle.I_R_TOA dyadic_cgs (sample_ext Real.sqrt Real.exp Real.log Real.rpow)
          ⟨⟨1, 1, false⟩, 1, [1 / 8, 2, 4], [1, 1, 100], true, none, none⟩ (225 / 128) 8
        = 3825 / 247744 * 100 * (15 / 17) ∧
      ¬ (Particle.I_R_TOA dyadic_cgs (sample_ext Real.sqrt Real.exp Real.log Real.rpow)
          ⟨⟨1, 1, false⟩, 1, [1 / 8, 2, 4], [1, 1, 100], true, none, none⟩ (225 / 128) 8
        ≤ Particle.I_R_LIS dyadic_cgs (sample_ext Real.sqrt Real.exp Real.log Real.rpow)
          ⟨⟨1, 1, false⟩, 1, [1 / 8, 2, 4], [1, 1, 100], true, none, none⟩ (225 / 128))) := by
  have hA1 : Particle.I_R_TOA dyadic_cgs (sample_ext Real.sqrt Real.exp Real.log Real.rpow)
      ⟨⟨1, 1, false⟩, 1, [15 / 64, 8192], [1, 1], true, none, none⟩ (45 / 64) 0 = 0 := by
    simp only [Particle.I_R_TOA, T_now_dyadic_low]
    norm_num [front, back]
  have hA2 : Particle.I_R_LIS dyadic_cgs (sample_ext Real.sqrt Real.exp Real.log Real.rpow)
      ⟨⟨1, 1, false⟩, 1, [15 / 64, 8192], [1, 1], true, none, none⟩ (45 / 64) = 3 / 5 := by
    simp only [Particle.I_R_LIS, T_now_dyadic_low, dTdR_dyadic_low, Particle.I_T_interpol]
    have e : (sample_ext Real.sqrt Real.exp Real.log Real.rpow).LinearInterpolatorLog
        [15 / 64, 8192] [1, 1] (15 / 64) = 1 :=
      spec_interpol_flat _ _ _ (le_refl _) (by norm_num)
    rw [e]
    norm_num
  have hB1 : Particle.I_R_LIS dyadic_cgs (sample_ext Real.sqrt Real.exp Real.log Real.rpow)
      ⟨⟨1, 1, false⟩, 1, [1 / 8, 8192], [1, 1], true, none, none⟩ (45 / 64) = 3 / 5 := by
    simp only [Particle.I_R_LIS, T_now_dyadic_low, dTdR_dyadic_low, Particle.I_T_interpol]
    have e : (sample_ext Real.sqrt Real.exp Real.log Real.rpow).LinearInterpolatorLog
        [1 / 8, 8192] [1, 1] (15 / 64) = 1 :=
      spec_interpol_flat _ _ _ (by norm_num) (by norm_num)
    rw [e]
    norm_num
  have hBT : Particle.T_ISM dyadic_cgs (sample_ext Real.sqrt Real.exp Real.log Real.rpow)
      ⟨⟨1, 1, false⟩, 1, [1 / 8, 8192], [1, 1], true, none, none⟩ (45 / 64) (1 / 2)
      = 47 / 64 := by
    simp only [Particle.T_ISM, T_now_dyadic_low]
    norm_num [back, PID.get_Z_over_A]
  have hB2 : Particle.I_R_TOA dyadic_cgs (sample_ext Real.sqrt Real.exp Real.log Real.rpow)
      ⟨⟨1, 1, false⟩, 1, [1 / 8, 8192], [1, 1], true, none, none⟩ (45 / 64) (1 / 2)
      = 3375 / 1391 * (3 / 5) := by
    have e : (sample_ext Real.sqrt Real.exp Real.log Real.rpow).LinearInterpolatorLog
        [1 / 8, 8192] [1, 1] (47 / 64) = 1 :=
      spec_interpol_flat _ _ _ (by norm_num) (by norm_num)
    simp only [Particle.I_R_TOA, Particle.TOA_factor, hBT, T_now_dyadic_low, dTdR_dyadic_low,
      Particle.I_T_interpol, e]
    norm_num [front, back, pow2, dyadic_cgs]
  have hC1 : Particle.I_R_LIS dyadic_cgs (sample_ext Real.sqrt Real.exp Real.log Real.rpow)
      ⟨⟨1, 1, false⟩, 1, [1 / 8, 2, 4], [1, 1, 100], true, none, none⟩ (225 / 128)
      = 15 / 17 := by
    simp only [Particle.I_R_LIS, T_now_dyadic_high, dTdR_dyadic_high, Particle.I_T_interpol]
    have e : (sample_ext Real.sqrt Real.exp Real.log Real.rpow).LinearInterpolatorLog
        [1 / 8, 2, 4] [1, 1, 100] (135 / 128) = 1 :=
      spec_interpol_first_flat _ _ _ _ _ (by norm_num) (by norm_num)
    rw [e]
    norm_num
  have hCT : Particle.T_ISM dyadic_cgs (sample_ext Real.sqrt Real.exp Real.log Real.rpow)
      ⟨⟨1, 1, false⟩, 1, [1 / 8, 2, 4], [1, 1, 100], true, none, none⟩ (225 / 128) 8
      = 4 := by
    simp only [Particle.T_ISM, T_now_dyadic_high]
    norm_num [back, PID.get_Z_over_A]
  have hC2 : Particle.I_R_TOA dyadic_cgs (sample_ext Real.sqrt Real.exp Real.log Real.rpow)
      ⟨⟨1, 1, false⟩, 1, [1 / 8, 2, 4], [1, 1, 100], true, none, none⟩ (225 / 128) 8
      = 3825 / 247744 * 100 * (15 / 17) := by
    have e : (sample_ext Real.sqrt Real.exp Real.log Real.rpow).LinearInterpolatorLog
        [1 / 8, 2, 4] [1, 1, 100] 4 = 100 := spec_interpol_rising_back
    simp only [Particle.I_R_TOA, Particle.TOA_factor, hCT, T_now_dyadic_high, dTdR_dyadic_high,
      Particle.I_T_interpol, e]
    norm_num [front, back, pow2, dyadic_cgs]
  refine ⟨⟨hA1, hA2⟩, ⟨hB1, hB2, ?_⟩, hC1, hC2, ?_⟩
  · rw [hB1, hB2]
    norm_num
  · rw [hC1, hC2]
    norm_num

/-- Claim C4, amended: for a species with a non-empty grid (on which `front` and `back` are the
first and the last grid point), `Z/A ≥ 0`, `R > 0`, `phi ≥ 0`, a non-negative proton mass, a
non-negative `sqrt` and a non-negative interpolant.  (a) `I_R_TOA(R, 0) = I_R_LIS(R)` when
`T_front < T_now < T_back` and `T_now² ≠ m_p²`.  (b) When `T_now` is not strictly between
`T_front` and `T_back` (end points included) `I_R_TOA(R, phi)` is 0, which is at most
`I_R_LIS(R)`.  (c) When `T_front < T_now < T_back`, `T_now > m_p` and the interpolated
intensity at `T_ISM` is at most the one at `T_now`, `I_R_TOA(R, phi) ≤ I_R_LIS(R)`. -/
theorem I_R_TOA_le_LIS (c : Cgs α) (u : Ext α) (self : Particle α) (R phi : α)
    (hgrid : self._T ≠ [])
    (hZA : 0 ≤ (self._pid.get_Z_over_A : α)) (hR : 0 < R) (hphi : 0 ≤ phi)
    (hmp : 0 ≤ c.proton_mass_c2) (hsqrt : ∀ x, 0 ≤ u.sqrt x)
    (hI : ∀ x, 0 ≤ u.LinearInterpolatorLog self._T self._I_T x) :
    (front self._T = self._T.head hgrid ∧ back self._T = self._T.getLast hgrid) ∧
      (front self._T < Particle.T_now c u self R ∧ Particle.T_now c u self R < back self._T →
        pow2 (Particle.T_now c u self R) ≠ pow2 c.proton_mass_c2 →
        Particle.I_R_TOA c u self R 0 = Particle.I_R_LIS c u self R) ∧
      (¬ (front self._T < Particle.T_now c u self R ∧
            Particle.T_now c u self R < back self._T) →
        Particle.I_R_TOA c u self R phi = 0 ∧
          Particle.I_R_TOA c u self R phi ≤ Particle.I_R_LIS c u self R) ∧
      (front self._T < Particle.T_now c u self R ∧ Particle.T_now c u self R < back self._T →
        c.proton_mass_c2 < Particle.T_now c u self R →
        Particle.I_T_interpol u self (Particle.T_ISM c u self R phi) ≤
          Particle.I_T_interpol u self (Particle.T_now c u self R) →
        Particle.I_R_TOA c u self R phi ≤ Particle.I_R_LIS c u self R) := by
  have hd : 0 ≤ Particle.dTdR c u self R := by
    simp only [Particle.dTdR]
    exact div_nonneg (mul_nonneg (le_of_lt hR) (mul_self_nonneg _)) (hsqrt _)
  have hL : 0 ≤ Particle.I_R_LIS c u self R := by
    simp only [Particle.I_R_LIS, Particle.I_T_interpol]
    exact mul_nonneg (hI _) hd
  refine ⟨⟨front_eq_head _ hgrid, back_eq_getLast _ hgrid⟩, ?_, ?_, ?_⟩
  · intro hg hne
    have hg2 : Particle.T_now c u self R > front self._T ∧
        Particle.T_now c u self R < back self._T := hg
    have hT : Particle.T_ISM c u self R 0 = Particle.T_now c u self R := by
      simp only [Particle.T_ISM, mul_zero, add_zero]
      exact min_eq_left (le_of_lt hg.2)
    simp only [Particle.I_R_TOA, if_pos hg2, Particle.TOA_factor, hT, Particle.I_R_LIS]
    rw [div_self (sub_ne_zero.mpr hne), one_mul]
  · intro hg
    have hg2 : ¬ (Particle.T_now c u self R > front self._T ∧
        Particle.T_now c u self R < back self._T) := hg
    have h0 : Particle.I_R_TOA c u self R phi = 0 := by
      simp only [Particle.I_R_TOA, if_neg hg2]
    exact ⟨h0, by rw [h0]; exact hL⟩
  · intro hg hm hle
    have hg2 : Particle.T_now c u self R > front self._T ∧
        Particle.T_now c u self R < back self._T := hg
    have hb := T_ISM_bounds c u self R phi hZA hphi hg2
    have hnow : 0 < pow2 (Particle.T_now c u self R) - pow2 c.proton_mass_c2 := by
      simp only [pow2]
      nlinarith
    have hism : pow2 (Particle.T_now c u self R) - pow2 c.proton_mass_c2 ≤
        pow2 (Particle.T_ISM c u self R phi) - pow2 c.proton_mass_c2 := by
      simp only [pow2]
      nlinarith [hb.1]
    have hf1 : Particle.TOA_factor c u self R phi ≤ 1 := by
      simp only [Particle.TOA_factor]
      exact div_le_one_of_le₀ hism (le_trans (le_of_lt hnow) hism)
    simp only [Particle.I_R_TOA, if_pos hg2, Particle.I_R_LIS]
    refine mul_le_mul_of_nonneg_right ?_ hd
    calc Particle.TOA_factor c u self R phi
            * Particle.I_T_interpol u self (Particle.T_ISM c u self R phi)
          ≤ 1 * Particle.I_T_interpol u self (Particle.T_ISM c u self R phi) :=
            mul_le_mul_of_nonneg_right hf1 (hI _)
      _ = Particle.I_T_interpol u self (Particle.T_ISM c u self R phi) := one_mul _
      _ ≤ Particle.I_T_interpol u self (Particle.T_now c u self R) := hle

/-- Witness of the amended C4 for the proton on the grid `[1/8, 8192]` with the flat table
`[1, 1]` and the proton mass `15/16`: at `R = 225/128` (`T_now = 135/128`, above the proton
mass) and `phi = 1/2` the modulated intensity is at most the interstellar one. -/
theorem I_R_TOA_le_LIS_witness :
    Particle.I_R_TOA dyadic_cgs (sample_ext Real.sqrt Real.exp Real.log Real.rpow)
        ⟨⟨1, 1, false⟩, 1, [1 / 8, 8192], [1, 1], true, none, none⟩ (225 / 128) (1 / 2) ≤
      Particle.I_R_LIS dyadic_cgs (sample_ext Real.sqrt Real.exp Real.log Real.rpow)
        ⟨⟨1, 1, false⟩, 1, [1 / 8, 8192], [1, 1], true, none, none⟩ (225 / 128) := by
  have hT : Particle.T_ISM dyadic_cgs (sample_ext Real.sqrt Real.exp Real.log Real.rpow)
      ⟨⟨1, 1, false⟩, 1, [1 / 8, 8192], [1, 1], true, none, none⟩ (225 / 128) (1 / 2)
      = 199 / 128 := by
    simp only [Particle.T_ISM, T_now_dyadic_high]
    norm_num [back, PID.get_Z_over_A]
  refine (I_R_TOA_le_LIS dyadic_cgs (sample_ext Real.sqrt Real.exp Real.log Real.rpow)
    ⟨⟨1, 1, false⟩, 1, [1 / 8, 8192], [1, 1], true, none, none⟩ (225 / 128) (1 / 2)
    (by simp)
    (by norm_num [PID.get_Z_over_A]) (by norm_num) (by norm_num) (by norm_num [dyadic_cgs])
    (fun x => Real.sqrt_nonneg x) (fun x => spec_interpol_nonneg _ _ _ _ x)).2.2.2 ?_ ?_ ?_
  · rw [T_now_dyadic_high]
    norm_num [front, back]
  · rw [T_now_dyadic_high]
    norm_num [dyadic_cgs]
  · rw [hT, T_now_dyadic_high]
    simp only [Particle.I_T_interpol]
    have e1 : (sample_ext Real.sqrt Real.exp Real.log Real.rpow).LinearInterpolatorLog
        [1 / 8, 8192] [1, 1] (199 / 128) = 1 :=
      spec_interpol_flat _ _ _ (by norm_num) (by norm_num)
    have e2 : (sample_ext Real.sqrt Real.exp Real.log Real.rpow).LinearInterpolatorLog
        [1 / 8, 8192] [1, 1] (135 / 128) = 1 :=
      spec_interpol_flat _ _ _ (by norm_num) (by norm_num)
    rw [e1, e2]

/-- Witness of C10 for the sample proton on the grid `[0.1, 10000]` at `R = 0.7035 GV`
(`T_now = 0.2345 GeV`) and `phi = 0.5`: the interpolant is queried at `T_ISM = 0.7345`,
inside the grid. -/
theorem I_R_TOA_in_grid_witness :
    front ([1 / 10, 10000] : List ℝ) <
        Particle.T_ISM sample_cgs (sample_ext Real.sqrt Real.exp Real.log Real.rpow)
          ⟨⟨1, 1, false⟩, 1, [1 / 10, 10000], [1, 1], true, none, none⟩ (1407 / 2000) (1 / 2) ∧
      Particle.T_ISM sample_cgs (sample_ext Real.sqrt Real.exp Real.log Real.rpow)
          ⟨⟨1, 1, false⟩, 1, [1 / 10, 10000], [1, 1], true, none, none⟩ (1407 / 2000) (1 / 2) ≤
        back ([1 / 10, 10000] : List ℝ) := by
  have h := (I_R_TOA_in_grid sample_cgs (sample_ext Real.sqrt Real.exp Real.log Real.rpow)
    ⟨⟨1, 1, false⟩, 1, [1 / 10, 10000], [1, 1], true, none, none⟩ (1407 / 2000) (1 / 2)
    (by norm_num [PID.get_Z_over_A]) (by simp) (by norm_num)).2.2.2.2.1
    (by rw [T_now_sample_low]; norm_num [front, back])
  exact ⟨h.2.1, h.2.2.1⟩

/-- Witness of the amended C8: datum `R = 10, F = 1, lo = 0.1, hi = 0.2` with the model value
`0.5`, rescaled by 2 together with the model value. -/
theorem compute_chi2_rescale_witness :
    Chi2.compute_chi2
        (⟨rescale 2 [⟨10, 1, 1/10, 1/5⟩], 0, fun _ _ => 1⟩ : Chi2 ℚ) 0 100 =
      Chi2.compute_chi2 (⟨[⟨10, 1, 1/10, 1/5⟩], 0, fun _ _ => 1/2⟩ : Chi2 ℚ) 0 100 :=
  compute_chi2_rescale [⟨10, 1, 1/10, 1/5⟩] 0 0 100 2 (fun _ _ => 1/2) (fun _ _ => 1)
    (by norm_num)
    (by intro d _; norm_num)
    (by
      intro d hd
      have hd2 : d = ⟨10, 1, 1/10, 1/5⟩ := by
        have h3 : spec_inside [(⟨10, 1, 1/10, 1/5⟩ : data_point ℚ)] 0 100
            = [⟨10, 1, 1/10, 1/5⟩] := by
          norm_num [spec_inside, List.filter_cons]
        rw [h3] at hd
        exact List.mem_singleton.mp hd
      rw [hd2]
      norm_num)

/-! ### grammage.cpp -/

/-- The diffusion coefficient is strictly positive for a non-negative Alfven velocity. -/
theorem Grammage.D_pos (c : Cgs α) (u : Ext α) (pid : PID) (params : Params α) (T : α)
    (hvA : 0 ≤ params.v_A) (hH : 0 < params.H) (hD0 : 0 < params.D_0) (hRb : 0 < params.R_b)
    (hT : 0 < T) (hGeV : 0 < c.GeV)
    (hbeta : ∀ t, 0 < t → 0 < u.beta_func t)
    (hR : ∀ t, 0 < t → 0 < u.pc_func pid.A t / (pid.Z : α))
    (hpow : ∀ x y, 0 < x → 0 < u.pow x y) :
    0 < Grammage.D c u (Grammage.new c pid params) T := by
  have hR2 := hR T hT
  have h1 : 0 < u.pow (u.pc_func pid.A T / (pid.Z : α) / c.GeV) params.delta :=
    hpow _ _ (div_pos hR2 hGeV)
  have h2 : 0 < u.pow (u.pc_func pid.A T / (pid.Z : α) / params.R_b)
      (params.ddelta / params.smoothness) := hpow _ _ (div_pos hR2 hRb)
  have h3 : 0 < u.pow (1 + u.pow (u.pc_func pid.A T / (pid.Z : α) / params.R_b)
      (params.ddelta / params.smoothness)) params.smoothness := hpow _ _ (by linarith)
  have h4 : 0 < params.D_0 * (u.beta_func T
      * u.pow (u.pc_func pid.A T / (pid.Z : α) / c.GeV) params.delta
      / u.pow (1 + u.pow (u.pc_func pid.A T / (pid.Z : α) / params.R_b)
          (params.ddelta / params.smoothness)) params.smoothness) :=
    mul_pos hD0 (div_pos (mul_pos (hbeta T hT) h1) h3)
  have h5 : 0 ≤ 2 * params.v_A * params.H :=
    mul_nonneg (mul_nonneg (by norm_num) hvA) (le_of_lt hH)
  simp only [Grammage.D, Grammage.new]
  linarith

/-- The sample `beta` is positive at positive energies. -/
theorem sample_beta_pos (e : ℝ → ℝ) (t : ℝ) (ht : 0 < t) :
    0 < (sample_ext Real.sqrt e Real.log Real.rpow).beta_func t := by
  have h : 0 < Real.sqrt (t * (t + 2 * (469 / 500))) := Real.sqrt_pos.mpr (by positivity)
  simp only [sample_ext]
  exact div_pos h (by positivity)

/-- The sample rigidity of carbon-12 is positive at positive energies. -/
theorem sample_R_pos (e : ℝ → ℝ) (t : ℝ) (ht : 0 < t) :
    0 < (sample_ext Real.sqrt e Real.log Real.rpow).pc_func (12 : Int) t
      / (((6 : Int) : ℝ)) := by
  have h : 0 < Real.sqrt (t * (t + 2 * (469 / 500))) := Real.sqrt_pos.mpr (by positivity)
  simp only [sample_ext]
  exact div_pos (mul_pos (by norm_num) h) (by norm_num)

/-- For carbon-12 at `T = 10` with `D_0 = 1`, `delta = 0.5`, `ddelta = 0.2`, `s = 0.1`,
`R_b = 312`, `H = 4` and any `v_A ≥ 0` the sample diffusion coefficient is at least `9/20`
(its value is about 4.65). -/
theorem sample_D_lower (e : ℝ → ℝ) (vA : ℝ) (hv : 0 ≤ vA) :
    9 / 20 ≤ Grammage.D sample_cgs (sample_ext Real.sqrt e Real.log Real.rpow)
      (Grammage.new sample_cgs ⟨6, 12, false⟩
        (⟨1, 1 / 2, 1 / 5, 1 / 10, 312, vA, 4, 23 / 10, 1, 0⟩ : Params ℝ)) 10 := by
  have hS1 : (10 : ℝ) ≤ Real.sqrt (10 * (10 + 2 * (469 / 500))) :=
    (Real.le_sqrt (by norm_num) (by norm_num)).mpr (by norm_num)
  have hS2 : Real.sqrt (10 * (10 + 2 * (469 / 500))) ≤ 11 :=
    Real.sqrt_le_iff.mpr ⟨by norm_num, by norm_num⟩
  simp only [Grammage.D, Grammage.new, sample_ext, sample_cgs]
  generalize Real.sqrt (10 * (10 + 2 * (469 / 500))) = S at hS1 hS2
  have hR1 : (1 : ℝ) ≤ ((12 : Int) : ℝ) * S / ((6 : Int) : ℝ) / 1 := by
    push_cast
    linarith
  have hx0 : (0 : ℝ) ≤ ((12 : Int) : ℝ) * S / ((6 : Int) : ℝ) / 312 := by
    push_cast
    linarith
  have hx1 : ((12 : Int) : ℝ) * S / ((6 : Int) : ℝ) / 312 ≤ 1 := by
    push_cast
    linarith
  have hnum : 1 ≤ Real.rpow (((12 : Int) : ℝ) * S / ((6 : Int) : ℝ) / 1) (1 / 2) :=
    Real.one_le_rpow hR1 (by norm_num)
  have hy0 : 0 ≤ Real.rpow (((12 : Int) : ℝ) * S / ((6 : Int) : ℝ) / 312) (1 / 5 / (1 / 10)) :=
    Real.rpow_nonneg hx0 _
  have hy1 : Real.rpow (((12 : Int) : ℝ) * S / ((6 : Int) : ℝ) / 312) (1 / 5 / (1 / 10)) ≤ 1 :=
    Real.rpow_le_one hx0 hx1 (by norm_num)
  generalize Real.rpow (((12 : Int) : ℝ) * S / ((6 : Int) : ℝ) / 1) (1 / 2) = num at hnum
  generalize Real.rpow (((12 : Int) : ℝ) * S / ((6 : Int) : ℝ) / 312) (1 / 5 / (1 / 10)) = y
    at hy0 hy1
  have hden0 : 0 < Real.rpow (1 + y) (1 / 10) := Real.rpow_pos_of_pos (by linarith) _
  have hden1 : Real.rpow (1 + y) (1 / 10) ≤ 2 := by
    have h1 : Real.rpow (1 + y) (1 / 10) ≤ Real.rpow (1 + y) 1 :=
      Real.rpow_le_rpow_of_exponent_le (by linarith) (by norm_num)
    have h2 : Real.rpow (1 + y) 1 = 1 + y := Real.rpow_one _
    linarith
  generalize Real.rpow (1 + y) (1 / 10) = den at hden0 hden1
  have hbeta : 9 / 10 ≤ S / (10 + 469 / 500) := by
    rw [le_div_iff₀ (by norm_num)]
    linarith
  have hval : 9 / 20 ≤ S / (10 + 469 / 500) * num / den := by
    rw [le_div_iff₀ hden0]
    nlinarith
  nlinarith

/-- Counterexample to C9: carbon-12 at `T = 10` with `mu = 2.3`, `v_A = 1e-20`, `H = 4`,
`D_0 = 1`, `R_b = 312`, `s = 0.1` (all positive), over the real `sqrt`, `log`, `pow` and the
`exp` of a `double`, which is exactly 1 on `(-2^-60, 0]`.  The exponent `-v_A H / D(T)` lies
in that interval, the last factor `1 - exp(...)` is 0 and `get(T)` is 0, not positive. -/
theorem Grammage.tiny_v_A_returns_zero :
    (-(1 / 2 ^ 60) < -(1 / 10 ^ 20 : ℝ) * 4 /
        Grammage.D sample_cgs (sample_ext Real.sqrt (exp_double Real.exp) Real.log Real.rpow)
          (Grammage.new sample_cgs ⟨6, 12, false⟩
            (⟨1, 1 / 2, 1 / 5, 1 / 10, 312, 1 / 10 ^ 20, 4, 23 / 10, 1, 0⟩ : Params ℝ)) 10) ∧
      Grammage.get sample_cgs (sample_ext Real.sqrt (exp_double Real.exp) Real.log Real.rpow)
        (Grammage.new sample_cgs ⟨6, 12, false⟩
          (⟨1, 1 / 2, 1 / 5, 1 / 10, 312, 1 / 10 ^ 20, 4, 23 / 10, 1, 0⟩ : Params ℝ)) 10 = 0 ∧
      ¬ (0 < Grammage.get sample_cgs
        (sample_ext Real.sqrt (exp_double Real.exp) Real.log Real.rpow)
        (Grammage.new sample_cgs ⟨6, 12, false⟩
          (⟨1, 1 / 2, 1 / 5, 1 / 10, 312, 1 / 10 ^ 20, 4, 23 / 10, 1, 0⟩ : Params ℝ)) 10) := by
  have hD := sample_D_lower (exp_double Real.exp) (1 / 10 ^ 20) (by positivity)
  have hDpos : 0 < Grammage.D sample_cgs
      (sample_ext Real.sqrt (exp_double Real.exp) Real.log Real.rpow)
      (Grammage.new sample_cgs ⟨6, 12, false⟩
        (⟨1, 1 / 2, 1 / 5, 1 / 10, 312, 1 / 10 ^ 20, 4, 23 / 10, 1, 0⟩ : Params ℝ)) 10 := by
    linarith
  have harg1 : -(1 / 2 ^ 60) < -(1 / 10 ^ 20 : ℝ) * 4 /
      Grammage.D sample_cgs (sample_ext Real.sqrt (exp_double Real.exp) Real.log Real.rpow)
        (Grammage.new sample_cgs ⟨6, 12, false⟩
          (⟨1, 1 / 2, 1 / 5, 1 / 10, 312, 1 / 10 ^ 20, 4, 23 / 10, 1, 0⟩ : Params ℝ)) 10 := by
    rw [lt_div_iff₀ hDpos]
    nlinarith
  have harg2 : -(1 / 10 ^ 20 : ℝ) * 4 /
      Grammage.D sample_cgs (sample_ext Real.sqrt (exp_double Real.exp) Real.log Real.rpow)
        (Grammage.new sample_cgs ⟨6, 12, false⟩
          (⟨1, 1 / 2, 1 / 5, 1 / 10, 312, 1 / 10 ^ 20, 4, 23 / 10, 1, 0⟩ : Params ℝ)) 10 ≤ 0 :=
    div_nonpos_of_nonpos_of_nonneg (by norm_num) (le_of_lt hDpos)
  have hget : Grammage.get sample_cgs
      (sample_ext Real.sqrt (exp_double Real.exp) Real.log Real.rpow)
      (Grammage.new sample_cgs ⟨6, 12, false⟩
        (⟨1, 1 / 2, 1 / 5, 1 / 10, 312, 1 / 10 ^ 20, 4, 23 / 10, 1, 0⟩ : Params ℝ)) 10 = 0 := by
    have hexp : (sample_ext Real.sqrt (exp_double Real.exp) Real.log Real.rpow).exp
        (-(1 / 10 ^ 20 : ℝ) * 4 /
          Grammage.D sample_cgs (sample_ext Real.sqrt (exp_double Real.exp) Real.log Real.rpow)
            (Grammage.new sample_cgs ⟨6, 12, false⟩
              (⟨1, 1 / 2, 1 / 5, 1 / 10, 312, 1 / 10 ^ 20, 4, 23 / 10, 1, 0⟩ : Params ℝ)) 10)
        = 1 := by
      simp only [sample_ext, exp_double]
      exact if_pos ⟨harg1, harg2⟩
    have hform : Grammage.get sample_cgs
        (sample_ext Real.sqrt (exp_double Real.exp) Real.log Real.rpow)
        (Grammage.new sample_cgs ⟨6, 12, false⟩
          (⟨1, 1 / 2, 1 / 5, 1 / 10, 312, 1 / 10 ^ 20, 4, 23 / 10, 1, 0⟩ : Params ℝ)) 10 =
        (sample_ext Real.sqrt (exp_double Real.exp) Real.log Real.rpow).beta_func 10
          * (Grammage.new sample_cgs ⟨6, 12, false⟩
            (⟨1, 1 / 2, 1 / 5, 1 / 10, 312, 1 / 10 ^ 20, 4, 23 / 10, 1, 0⟩ : Params ℝ)).factor
          * (1 - (sample_ext Real.sqrt (exp_double Real.exp) Real.log Real.rpow).exp
            (-(1 / 10 ^ 20 : ℝ) * 4 /
              Grammage.D sample_cgs
                (sample_ext Real.sqrt (exp_double Real.exp) Real.log Real.rpow)
                (Grammage.new sample_cgs ⟨6, 12, false⟩
                  (⟨1, 1 / 2, 1 / 5, 1 / 10, 312, 1 / 10 ^ 20, 4, 23 / 10, 1, 0⟩ : Params ℝ))
                10)) := rfl
    rw [hform, hexp, sub_self, mul_zero]
  exact ⟨harg1, hget, by rw [hget]; exact lt_irrefl 0⟩

/-- Claim C9, amended: for `mu, v_A, H, D_0, R_b, s > 0` and every `T > 0`, with `beta > 0` and
rigidity `R > 0` at positive energies, positive constants `c_light` and `GeV` and a `pow` that
is positive on positive bases: every divisor met by the constructor, `D` and `get` is
non-zero, `D(T) > 0`, the exponent `-v_A H / D(T)` is negative,
`get(T) = beta(T) * (mu c / (2 v_A)) * (1 - exp(-v_A H / D(T)))`, and, the products being
exact, `get(T)` is strictly positive exactly when the computed `exp(-v_A H / D(T))` is below
1; where the computed exponential is exactly 1 (a `double` for exponents above `-2^-60`),
`get(T)` is 0. -/
theorem Grammage.get_pos_iff (c : Cgs α) (u : Ext α) (pid : PID) (params : Params α) (T : α)
    (hmu : 0 < params.mu) (hvA : 0 < params.v_A) (hH : 0 < params.H) (hD0 : 0 < params.D_0)
    (hRb : 0 < params.R_b) (hs : 0 < params.smoothness) (hT : 0 < T)
    (hc : 0 < c.c_light) (hGeV : 0 < c.GeV)
    (hbeta : ∀ t, 0 < t → 0 < u.beta_func t)
    (hR : ∀ t, 0 < t → 0 < u.pc_func pid.A t / (pid.Z : α))
    (hpow : ∀ x y, 0 < x → 0 < u.pow x y) :
    (params.v_A ≠ 0 ∧ (pid.Z : α) ≠ 0 ∧ params.R_b ≠ 0 ∧ c.GeV ≠ 0 ∧ params.smoothness ≠ 0 ∧
        u.pow (1 + u.pow (u.pc_func pid.A T / (pid.Z : α) / params.R_b)
          (params.ddelta / params.smoothness)) params.smoothness ≠ 0) ∧
      0 < Grammage.D c u (Grammage.new c pid params) T ∧
      -params.v_A * params.H / Grammage.D c u (Grammage.new c pid params) T < 0 ∧
      Grammage.get c u (Grammage.new c pid params) T =
        u.beta_func T * (params.mu * c.c_light / (2 * params.v_A)) *
          (1 - u.exp (-params.v_A * params.H / Grammage.D c u (Grammage.new c pid params) T)) ∧
      (0 < Grammage.get c u (Grammage.new c pid params) T ↔
        u.exp (-params.v_A * params.H / Grammage.D c u (Grammage.new c pid params) T) < 1) ∧
      (u.exp (-params.v_A * params.H / Grammage.D c u (Grammage.new c pid params) T) = 1 →
        Grammage.get c u (Grammage.new c pid params) T = 0) := by
  have hD := Grammage.D_pos c u pid params T (le_of_lt hvA) hH hD0 hRb hT hGeV hbeta hR hpow
  have hR2 := hR T hT
  have hZ : (pid.Z : α) ≠ 0 := by
    intro h0
    rw [h0, div_zero] at hR2
    exact lt_irrefl _ hR2
  have h2 : 0 < u.pow (u.pc_func pid.A T / (pid.Z : α) / params.R_b)
      (params.ddelta / params.smoothness) := hpow _ _ (div_pos hR2 hRb)
  have h3 : 0 < u.pow (1 + u.pow (u.pc_func pid.A T / (pid.Z : α) / params.R_b)
      (params.ddelta / params.smoothness)) params.smoothness := hpow _ _ (by linarith)
  have heq : Grammage.get c u (Grammage.new c pid params) T =
      u.beta_func T * (params.mu * c.c_light / (2 * params.v_A)) *
        (1 - u.exp (-params.v_A * params.H / Grammage.D c u (Grammage.new c pid params) T)) := by
    simp only [Grammage.get, Grammage.new, div_div]
  have harg : -params.v_A * params.H / Grammage.D c u (Grammage.new c pid params) T < 0 := by
    apply div_neg_of_neg_of_pos _ hD
    nlinarith
  have hpre : 0 < u.beta_func T * (params.mu * c.c_light / (2 * params.v_A)) :=
    mul_pos (hbeta T hT) (div_pos (mul_pos hmu hc) (by linarith))
  refine ⟨⟨ne_of_gt hvA, hZ, ne_of_gt hRb, ne_of_gt hGeV, ne_of_gt hs, ne_of_gt h3⟩, hD, harg,
    heq, ?_, ?_⟩
  · rw [heq]
    constructor
    · intro hpos
      have h4 := (mul_pos_iff_of_pos_left hpre).mp hpos
      linarith
    · intro hlt
      exact mul_pos hpre (by linarith)
  · intro h1
    rw [heq, h1, sub_self, mul_zero]

/-- Witness of the amended C9: carbon-12 at `T = 10` with `D_0 = 1`, `delta = 0.5`,
`ddelta = 0.2`, `s = 0.1`, `R_b = 312`, `v_A = 1`, `H = 4`, `mu = 2.3`, over the real `<cmath>`
functions, whose `exp` is below 1 at the negative exponent: `get(T)` is positive. -/
theorem Grammage.get_pos_iff_witness :
    0 < Grammage.get sample_cgs (sample_ext Real.sqrt Real.exp Real.log Real.rpow)
      (Grammage.new sample_cgs ⟨6, 12, false⟩
        (⟨1, 1 / 2, 1 / 5, 1 / 10, 312, 1, 4, 23 / 10, 1, 0⟩ : Params ℝ)) 10 :=
  (Grammage.get_pos_iff sample_cgs (sample_ext Real.sqrt Real.exp Real.log Real.rpow)
    ⟨6, 12, false⟩ (⟨1, 1 / 2, 1 / 5, 1 / 10, 312, 1, 4, 23 / 10, 1, 0⟩ : Params ℝ) 10
    (by norm_num) (by norm_num) (by norm_num) (by norm_num) (by norm_num) (by norm_num)
    (by norm_num) (by norm_num [sample_cgs]) (by norm_num [sample_cgs])
    (sample_beta_pos Real.exp) (sample_R_pos Real.exp)
    (fun x y hx => Real.rpow_pos_of_pos hx y)).2.2.2.2.1.mpr
    (Real.exp_lt_one_iff.mpr
      (Grammage.get_pos_iff sample_cgs (sample_ext Real.sqrt Real.exp Real.log Real.rpow)
        ⟨6, 12, false⟩ (⟨1, 1 / 2, 1 / 5, 1 / 10, 312, 1, 4, 23 / 10, 1, 0⟩ : Params ℝ) 10
        (by norm_num) (by norm_num) (by norm_num) (by norm_num) (by norm_num) (by norm_num)
        (by norm_num) (by norm_num [sample_cgs]) (by norm_num [sample_cgs])
        (sample_beta_pos Real.exp) (sample_R_pos Real.exp)
        (fun x y hx => Real.rpow_pos_of_pos hx y)).2.2.1)

/-- Counterexample to C6: carbon-12 at `T = 10` with `v_A = 0` and `mu = 2.3`, `H = 4`,
`D_0 = 1`, `R_b = 312`, `s = 0.1`, over the real `<cmath>` functions.  The constructor forms
the quotient `mu * c / 2 / 0`, and `get(T)` is not the limit `mu c H / (2 D(T))`. -/
theorem Grammage.zero_v_A_misses_limit :
    (Grammage.new sample_cgs ⟨6, 12, false⟩
        (⟨1, 1 / 2, 1 / 5, 1 / 10, 312, 0, 4, 23 / 10, 1, 0⟩ : Params ℝ)).factor
        = 23 / 10 * 1 / 2 / 0 ∧
      Grammage.get sample_cgs (sample_ext Real.sqrt Real.exp Real.log Real.rpow)
        (Grammage.new sample_cgs ⟨6, 12, false⟩
          (⟨1, 1 / 2, 1 / 5, 1 / 10, 312, 0, 4, 23 / 10, 1, 0⟩ : Params ℝ)) 10 ≠
        23 / 10 * 1 * 4 / (2 * Grammage.D sample_cgs
          (sample_ext Real.sqrt Real.exp Real.log Real.rpow)
          (Grammage.new sample_cgs ⟨6, 12, false⟩
            (⟨1, 1 / 2, 1 / 5, 1 / 10, 312, 0, 4, 23 / 10, 1, 0⟩ : Params ℝ)) 10) := by
  have hD := Grammage.D_pos sample_cgs (sample_ext Real.sqrt Real.exp Real.log Real.rpow)
    ⟨6, 12, false⟩ (⟨1, 1 / 2, 1 / 5, 1 / 10, 312, 0, 4, 23 / 10, 1, 0⟩ : Params ℝ) 10
    (by norm_num) (by norm_num) (by norm_num) (by norm_num) (by norm_num)
    (by norm_num [sample_cgs]) (sample_beta_pos Real.exp) (sample_R_pos Real.exp)
    (fun x y hx => Real.rpow_pos_of_pos hx y)
  have hget : Grammage.get sample_cgs (sample_ext Real.sqrt Real.exp Real.log Real.rpow)
      (Grammage.new sample_cgs ⟨6, 12, false⟩
        (⟨1, 1 / 2, 1 / 5, 1 / 10, 312, 0, 4, 23 / 10, 1, 0⟩ : Params ℝ)) 10 = 0 := by
    simp [Grammage.get, Grammage.new, sample_ext]
  refine ⟨by simp [Grammage.new, sample_cgs], ?_⟩
  rw [hget]
  exact ne_of_lt (div_pos (by norm_num) (mul_pos (by norm_num) hD))

/-- Claim C6, amended: for `v_A = 0` and `mu, H, D_0, R_b, s > 0`, `T > 0` (with `beta`, the
rigidity, `c_light`, `GeV` positive, `pow` positive on positive bases and `exp 0 = 1`) the
constructor forms the quotient `mu * c / 2 / v_A` with the divisor zero, `D(T)` is positive
and the limit `mu c H / (2 D(T))` is positive, but `get(T)` multiplies `beta * factor` by
`1 - exp(-0 * H / D(T)) = 0`: in exact arithmetic it is 0 for every value of the stored
`factor` (with the IEEE infinity it is `inf * 0`, a NaN), so it is not the limit. -/
theorem Grammage.get_zero_v_A (c : Cgs α) (u : Ext α) (pid : PID) (params : Params α) (T : α)
    (hvA : params.v_A = 0) (hmu : 0 < params.mu) (hH : 0 < params.H) (hD0 : 0 < params.D_0)
    (hRb : 0 < params.R_b) (hs : 0 < params.smoothness) (hT : 0 < T)
    (hc : 0 < c.c_light) (hGeV : 0 < c.GeV)
    (hbeta : ∀ t, 0 < t → 0 < u.beta_func t)
    (hR : ∀ t, 0 < t → 0 < u.pc_func pid.A t / (pid.Z : α))
    (hpow : ∀ x y, 0 < x → 0 < u.pow x y) (hexp : u.exp 0 = 1) :
    params.smoothness ≠ 0 ∧
      (Grammage.new c pid params).factor = params.mu * c.c_light / 2 / 0 ∧
      0 < Grammage.D c u (Grammage.new c pid params) T ∧
      0 < params.mu * c.c_light * params.H /
        (2 * Grammage.D c u (Grammage.new c pid params) T) ∧
      (∀ f : α, Grammage.get c u { Grammage.new c pid params with factor := f } T = 0) ∧
      Grammage.get c u (Grammage.new c pid params) T = 0 ∧
      Grammage.get c u (Grammage.new c pid params) T ≠
        params.mu * c.c_light * params.H /
          (2 * Grammage.D c u (Grammage.new c pid params) T) := by
  have hD := Grammage.D_pos c u pid params T (le_of_eq hvA.symm) hH hD0 hRb hT hGeV hbeta hR
    hpow
  have hlim : 0 < params.mu * c.c_light * params.H /
      (2 * Grammage.D c u (Grammage.new c pid params) T) :=
    div_pos (mul_pos (mul_pos hmu hc) hH) (mul_pos (by norm_num) hD)
  have hall : ∀ f : α, Grammage.get c u { Grammage.new c pid params with factor := f } T = 0 := by
    intro f
    simp [Grammage.get, Grammage.new, hvA, hexp]
  have hget : Grammage.get c u (Grammage.new c pid params) T = 0 := by
    simp [Grammage.get, Grammage.new, hvA, hexp]
  refine ⟨ne_of_gt hs, ?_, hD, hlim, hall, hget, ?_⟩
  · simp only [Grammage.new, hvA]
  · rw [hget]
    exact ne_of_lt hlim

/-- Witness of the amended C6 on the input of the counterexample. -/
theorem Grammage.get_zero_v_A_witness :
    Grammage.get sample_cgs (sample_ext Real.sqrt Real.exp Real.log Real.rpow)
      (Grammage.new sample_cgs ⟨6, 12, false⟩
        (⟨1, 1 / 2, 1 / 5, 1 / 10, 312, 0, 4, 23 / 10, 1, 0⟩ : Params ℝ)) 10 = 0 :=
  (Grammage.get_zero_v_A sample_cgs (sample_ext Real.sqrt Real.exp Real.log Real.rpow)
    ⟨6, 12, false⟩ (⟨1, 1 / 2, 1 / 5, 1 / 10, 312, 0, 4, 23 / 10, 1, 0⟩ : Params ℝ) 10
    rfl (by norm_num) (by norm_num) (by norm_num) (by norm_num) (by norm_num)
    (by norm_num) (by norm_num [sample_cgs]) (by norm_num [sample_cgs])
    (sample_beta_pos Real.exp) (sample_R_pos Real.exp) (fun x y hx => Real.rpow_pos_of_pos hx y)
    Real.exp_zero).2.2.2.2.2.1

end Crams
